import Mathlib

/-!
Verification of the `sysprog` repository against its specification.

The repository has three independent subsystems:
* UFS (`src/3/userfs.c`) — an in-memory file system with block chains,
  a descriptor table, reference counting, and deferred deletion;
* TPOOL (`src/4/thread_pool.c`, first part) — a lazily scaling worker pool;
* SHELL (`src/4/thread_pool.c`, second part) — a pipeline / logical-chain
  executor.

Each C function relevant to the claims is translated to a Lean definition
of the same name.  Machine integers are modelled by `Nat` (or `Int` where
the C value can be negative); C functions that can fail return `Option`
(with `none` standing for the C return value `-1`).  Memory allocation
(`malloc` / `calloc` / `realloc`) is modelled as always succeeding; the
C code's out-of-memory branches are therefore absent from the model.
-/

namespace Ufs

/-- `BLOCK_SIZE` from `userfs.c`. -/
def BLOCK_SIZE : Nat := 4096

/-- `MAX_FILE_SIZE` from `userfs.c` (100 MiB). -/
def MAX_FILE_SIZE : Nat := 1024 * 1024 * 100

/-- `DESCRIPTOR_POOL_START_SIZE` from `userfs.c`. -/
def DESCRIPTOR_POOL_START_SIZE : Nat := 10

/-- `CAPACITY_MULTIPLIER` from `userfs.c`. -/
def CAPACITY_MULTIPLIER : Nat := 2

/-- `enum ufs_error_code` from the UFS interface. -/
inductive UfsErrorCode where
  | UFS_ERR_NO_ERR
  | UFS_ERR_NO_FILE
  | UFS_ERR_NO_MEM
  | UFS_ERR_NO_PERMISSION
deriving DecidableEq, Repr

export UfsErrorCode (UFS_ERR_NO_ERR UFS_ERR_NO_FILE UFS_ERR_NO_MEM UFS_ERR_NO_PERMISSION)

/-- Modelled from the spec: the open-flag constants of `enum open_flags`.
The header `userfs.h` is not part of the sources; the spec says
"Flags are a bitset with `CREATE`, `READ_ONLY`, `WRITE_ONLY`, `READ_WRITE`",
so the four constants are distinct powers of two. -/
def UFS_CREATE : Nat := 1

/-- Modelled from the spec: see `UFS_CREATE`. -/
def UFS_READ_ONLY : Nat := 2

/-- Modelled from the spec: see `UFS_CREATE`. -/
def UFS_WRITE_ONLY : Nat := 4

/-- Modelled from the spec: see `UFS_CREATE`. -/
def UFS_READ_WRITE : Nat := 8

/-- `struct block`: a fixed 4096-byte buffer and an occupied count.
The `next`/`prev` links of the C struct are represented by the position
of the block inside the file's block list. -/
structure Block where
  memory : List Nat
  occupied : Nat
deriving DecidableEq, Repr

/-- A freshly allocated block (`expand_storage_unit`): zeroed memory of
`BLOCK_SIZE` bytes, `occupied = 0`. -/
def newBlock : Block := ⟨List.replicate BLOCK_SIZE 0, 0⟩

/-- The bytes a block contributes to the file payload: the first
`occupied` bytes of its memory. -/
def blockContent (b : Block) : List Nat := b.memory.take b.occupied

/-- The full payload of a chain of blocks. -/
def content (bs : List Block) : List Nat := (bs.map blockContent).flatten

/-- Well-formedness of a block chain, maintained by every UFS operation:
the chain is non-empty, every block's buffer is exactly `BLOCK_SIZE`
bytes with `occupied ≤ BLOCK_SIZE`, and every non-terminal block is full. -/
structure WfBlocks (bs : List Block) : Prop where
  ne : bs ≠ []
  mem_len : ∀ b ∈ bs, b.memory.length = BLOCK_SIZE
  occ_le : ∀ b ∈ bs, b.occupied ≤ BLOCK_SIZE
  full : ∀ i, i + 1 < bs.length → (bs.getD i newBlock).occupied = BLOCK_SIZE

/-- The write loop of `ufs_write` (lines 443–473 of `userfs.c`), acting on
the block list from the descriptor's current segment `seg` and in-block
position `pos`.  At a block boundary it advances to the next block,
allocating a fresh one at the end of the chain if there is none
(`expand_storage_unit`); otherwise it copies
`min (BLOCK_SIZE - pos) B.length` bytes into the current block and raises
`occupied` to the new in-block position if that is larger.
The `c = 0` escape can only fire when `pos > BLOCK_SIZE`, a state the C
code never reaches (`byte_pos ≤ BLOCK_SIZE` is invariant); it makes the
recursion total. -/
def writeLoop (bs : List Block) (seg pos : Nat) (B : List Nat) :
    List Block × Nat × Nat :=
  if B = [] then (bs, seg, pos)
  else if pos = BLOCK_SIZE then
    if seg + 1 < bs.length then
      writeLoop bs (seg + 1) 0 B
    else
      writeLoop (bs ++ [newBlock]) (seg + 1) 0 B
  else
    let blk := bs.getD seg newBlock
    let c := min (BLOCK_SIZE - pos) B.length
    if c = 0 then (bs, seg, pos)
    else
      let blk' : Block :=
        ⟨blk.memory.take pos ++ B.take c ++ blk.memory.drop (pos + c),
         max blk.occupied (pos + c)⟩
      writeLoop (bs.set seg blk') seg (pos + c) (B.drop c)
termination_by (B.length, if pos = BLOCK_SIZE then 1 else 0)
decreasing_by
  · simp only [Prod.lex_iff]
    right
    refine ⟨trivial, ?_⟩
    simp_all [BLOCK_SIZE]
  · simp only [Prod.lex_iff]
    right
    refine ⟨trivial, ?_⟩
    simp_all [BLOCK_SIZE]
  · rename_i hc
    simp only [Prod.lex_iff, List.length_drop]
    left
    have h1 : min (BLOCK_SIZE - pos) B.length ≤ B.length := Nat.min_le_right _ _
    have h2 : min (BLOCK_SIZE - pos) B.length ≠ 0 := hc
    omega

/-- The read loop of `ufs_read` (lines 501–528 of `userfs.c`).  Returns the
bytes read together with the final segment index and in-block position.
The block list itself is not modified by reading. -/
def readLoop (bs : List Block) (seg pos size : Nat) :
    List Nat × Nat × Nat :=
  if size = 0 then ([], seg, pos)
  else if pos = BLOCK_SIZE then
    if seg + 1 < bs.length then
      readLoop bs (seg + 1) 0 size
    else ([], seg, pos)
  else
    let blk := bs.getD seg newBlock
    let bytes := min (blk.occupied - pos) size
    if bytes = 0 then ([], seg, pos)
    else
      let piece := (blk.memory.drop pos).take bytes
      let rest := readLoop bs seg (pos + bytes) (size - bytes)
      (piece ++ rest.1, rest.2.1, rest.2.2)
termination_by (size, if pos = BLOCK_SIZE then 1 else 0)
decreasing_by
  · simp only [Prod.lex_iff]
    right
    refine ⟨trivial, ?_⟩
    simp_all [BLOCK_SIZE]
  · rename_i hbytes
    simp only [Prod.lex_iff]
    left
    have h1 : min ((bs.getD seg newBlock).occupied - pos) size ≤ size :=
      Nat.min_le_right _ _
    have h2 : min ((bs.getD seg newBlock).occupied - pos) size ≠ 0 := hbytes
    omega

/-- Replacing the sub-range `[ℓ, ℓ + B.length)` of a byte sequence by `B`
(extending the sequence when the range reaches past its end). -/
def splice (C : List Nat) (ℓ : Nat) (B : List Nat) : List Nat :=
  C.take ℓ ++ B ++ C.drop (ℓ + B.length)

/-- `struct filedesc`: a back-reference to a file (by identity), the open
flags and the cursor. -/
structure Filedesc where
  file_id : Nat
  curr_data_segment : Nat
  flags : Nat
  byte_pos : Nat
deriving DecidableEq, Repr

/-- `struct file`: the block chain, reference count, name, removal flag.
The C `struct file *` pointer identity is modelled by the `id` field; the
`next`/`prev` links are the position in the state's `file_list`. -/
structure UFile where
  id : Nat
  block_list : List Block
  refs : Int
  name : String
  is_removed : Bool
deriving DecidableEq, Repr

/-- The global state of the UFS module: `file_list`, the descriptor array
(`[]` models the initial NULL pointer; the list length is the capacity),
`file_descriptor_count`, the allocation counter for file identities, and
the global `ufs_error_code`. -/
structure UFS where
  file_list : List UFile
  file_descriptors : List (Option Filedesc)
  file_descriptor_count : Nat
  next_id : Nat
  errno : UfsErrorCode
deriving DecidableEq, Repr

/-- The state of the module at program start. -/
def ufs_initial : UFS := ⟨[], [], 0, 0, UFS_ERR_NO_ERR⟩

/-- `ufs_errno`. -/
def ufs_errno (st : UFS) : UfsErrorCode := st.errno

/-- `find`: first file in the list that is not removed and whose name
matches the whole filename (`strncmp` plus terminator check). -/
def find (st : UFS) (filename : String) : Option UFile :=
  st.file_list.find? (fun f => !f.is_removed && f.name == filename)

/-- `mkfile`: allocate a file with one empty block and push it at the head
of the file list.  The fresh identity is `next_id`. -/
def mkfile (st : UFS) (fname : String) : UFS × UFile :=
  let f : UFile := ⟨st.next_id, [newBlock], 0, fname, false⟩
  ({ st with file_list := f :: st.file_list, next_id := st.next_id + 1 }, f)

/-- `rm` unlinks one file node (identified by its pointer, here by `id`)
from the file list and frees it and its chain. -/
def removeFileById : List UFile → Nat → List UFile
  | [], _ => []
  | f :: t, fid => if f.id = fid then t else f :: removeFileById t fid

/-- `fd_setup`: allocate the descriptor array with
`DESCRIPTOR_POOL_START_SIZE` NULL slots. -/
def fd_setup (st : UFS) : UFS :=
  { st with
    file_descriptors := List.replicate DESCRIPTOR_POOL_START_SIZE none,
    file_descriptor_count := 0 }

/-- `adjust_container_capacity`: double the array when
`count ≥ capacity`, halve it when `count < capacity / 2` and the capacity
is above the floor; otherwise leave it unchanged.  `realloc` keeps the
existing prefix; freshly grown slots are NULLed. -/
def adjust_container_capacity (st : UFS) : UFS :=
  let cap := st.file_descriptors.length
  if st.file_descriptor_count ≥ cap then
    { st with file_descriptors :=
        st.file_descriptors
          ++ List.replicate (cap * CAPACITY_MULTIPLIER - cap) none }
  else if st.file_descriptor_count < cap / CAPACITY_MULTIPLIER
      ∧ cap > DESCRIPTOR_POOL_START_SIZE then
    { st with file_descriptors :=
        st.file_descriptors.take (cap / CAPACITY_MULTIPLIER) }
  else st

/-- `locate_descriptor`: in-range, non-NULL slots only. -/
def locate_descriptor (st : UFS) (fd : Nat) : Option Filedesc :=
  if fd < st.file_descriptor_count then st.file_descriptors.getD fd none
  else none

/-- `smallest_fd`: the first NULL slot of the array; if the array is full
(`capacity == count`), grow it and use index `count`. -/
def smallest_fd (st : UFS) : UFS × Option Nat :=
  if st.file_descriptors = [] then (st, none)
  else
    match st.file_descriptors.findIdx? (fun o => o.isNone) with
    | some fd => (st, some fd)
    | none =>
      let st' := if st.file_descriptors.length = st.file_descriptor_count
        then adjust_container_capacity st else st
      (st', some st'.file_descriptor_count)

/-- `is_readable`: the switch admits exactly the flag values
`0`, `UFS_CREATE`, `UFS_READ_ONLY`, `UFS_READ_WRITE`. -/
def is_readable (descriptor : Filedesc) : Bool :=
  descriptor.flags == 0 || descriptor.flags == UFS_CREATE
    || descriptor.flags == UFS_READ_ONLY || descriptor.flags == UFS_READ_WRITE

/-- `is_writable`: the flag values `0`, `UFS_CREATE`, `UFS_WRITE_ONLY`,
`UFS_READ_WRITE`. -/
def is_writable (desc : Filedesc) : Bool :=
  desc.flags == 0 || desc.flags == UFS_CREATE
    || desc.flags == UFS_WRITE_ONLY || desc.flags == UFS_READ_WRITE

/-- Lines 383–412 of `ufs_open`: pick the slot (`smallest_fd`, then the
re-scan loop of lines 384–389, whose result coincides with `smallest_fd`
when that one found a hole and with the first slot of the grown array
otherwise), build the descriptor (`create_descriptor`: cursor at segment 0,
byte 0), install it, bump the file's `refs` and the logical count. -/
def ufs_open_body (st0 : UFS) (f : UFile) (flags : Nat) : UFS × Option Nat :=
  let p := smallest_fd st0
  let st := p.1
  let free_fd := (st.file_descriptors.findIdx? (fun o => o.isNone)).getD
    (p.2.getD st.file_descriptor_count)
  let desc : Filedesc := ⟨f.id, 0, flags, 0⟩
  let st' : UFS := { st with
    file_descriptors := st.file_descriptors.set free_fd (some desc),
    file_list := st.file_list.map (fun g =>
      if g.id = f.id then { g with refs := g.refs + 1 } else g),
    file_descriptor_count := if free_fd = st.file_descriptor_count
      then st.file_descriptor_count + 1 else st.file_descriptor_count,
    errno := UFS_ERR_NO_ERR }
  (st', some free_fd)

/-- `ufs_open`. -/
def ufs_open (st : UFS) (filename : String) (flags : Nat) : UFS × Option Nat :=
  let st := if st.file_descriptors = [] then fd_setup st else st
  match find st filename with
  | none =>
    if flags &&& UFS_CREATE = 0 then
      ({ st with errno := UFS_ERR_NO_FILE }, none)
    else
      let q := mkfile st filename
      ufs_open_body q.1 q.2 flags
  | some f => ufs_open_body st f flags

/-- `ufs_write`.  Returns `none` for the C result `-1`, otherwise the
number of bytes written.  The short-write path on allocation failure does
not exist in the model (allocation always succeeds). -/
def ufs_write (st : UFS) (fd : Nat) (buf : List Nat) : UFS × Option Nat :=
  match locate_descriptor st fd with
  | none => ({ st with errno := UFS_ERR_NO_FILE }, none)
  | some desc =>
    if ¬ is_writable desc then
      ({ st with errno := UFS_ERR_NO_PERMISSION }, none)
    else
      match st.file_list.find? (fun f => f.id == desc.file_id) with
      | none => ({ st with errno := UFS_ERR_NO_FILE }, none)
      | some file =>
        let current_block := file.block_list.getD desc.curr_data_segment newBlock
        let total_size := current_block.occupied
          + desc.curr_data_segment * BLOCK_SIZE
        if total_size + buf.length > MAX_FILE_SIZE then
          ({ st with errno := UFS_ERR_NO_MEM }, none)
        else
          let r := writeLoop file.block_list desc.curr_data_segment
            desc.byte_pos buf
          let st' : UFS := { st with
            file_list := st.file_list.map (fun g =>
              if g.id = file.id then { g with block_list := r.1 } else g),
            file_descriptors := st.file_descriptors.set fd
              (some { desc with curr_data_segment := r.2.1, byte_pos := r.2.2 }),
            errno := UFS_ERR_NO_ERR }
          (st', some buf.length)

/-- `ufs_read`.  Returns `none` for `-1`, otherwise the bytes read (their
count is the C return value). -/
def ufs_read (st : UFS) (fd : Nat) (size : Nat) : UFS × Option (List Nat) :=
  match locate_descriptor st fd with
  | none => ({ st with errno := UFS_ERR_NO_FILE }, none)
  | some desc =>
    if ¬ is_readable desc then
      ({ st with errno := UFS_ERR_NO_PERMISSION }, none)
    else
      match st.file_list.find? (fun f => f.id == desc.file_id) with
      | none => ({ st with errno := UFS_ERR_NO_FILE }, none)
      | some file =>
        let r := readLoop file.block_list desc.curr_data_segment
          desc.byte_pos size
        let st' : UFS := { st with
          file_descriptors := st.file_descriptors.set fd
            (some { desc with curr_data_segment := r.2.1, byte_pos := r.2.2 }),
          errno := UFS_ERR_NO_ERR }
        (st', some r.1)

/-- The `while` loop at the end of `ufs_close`: as long as the last
in-count slot is NULL, decrement the logical count. -/
def shrink_count (fds : List (Option Filedesc)) : Nat → Nat
  | 0 => 0
  | n + 1 => if fds.getD n none = none then shrink_count fds n else n + 1

/-- `ufs_close`.  Decrement the file's `refs`; when they reach `0` on a
removed file, unlink and destroy it.  Clear the slot, shrink the logical
count past trailing NULLs when the closed slot was the last one, and let
the capacity adjust. -/
def ufs_close (st : UFS) (fd : Nat) : UFS × Option Unit :=
  if fd ≥ st.file_descriptor_count ∨ st.file_descriptors.getD fd none = none then
    ({ st with errno := UFS_ERR_NO_FILE }, none)
  else
    match st.file_descriptors.getD fd none with
    | none => ({ st with errno := UFS_ERR_NO_FILE }, none)
    | some desc =>
      let st1 : UFS := { st with file_list := st.file_list.map (fun g =>
        if g.id = desc.file_id then { g with refs := g.refs - 1 } else g) }
      let st2 : UFS :=
        match st1.file_list.find? (fun f => f.id == desc.file_id) with
        | some f =>
          if f.refs = 0 ∧ f.is_removed then
            { st1 with file_list := removeFileById st1.file_list f.id }
          else st1
        | none => st1
      let st3 : UFS := { st2 with
        file_descriptors := st2.file_descriptors.set fd none }
      let st4 : UFS := if fd = st3.file_descriptor_count - 1 then
          { st3 with file_descriptor_count :=
              shrink_count st3.file_descriptors st3.file_descriptor_count }
        else st3
      let st5 := adjust_container_capacity st4
      ({ st5 with errno := UFS_ERR_NO_ERR }, some ())

/-- `ufs_delete`: destroy immediately when no descriptor holds the file,
otherwise only mark it removed. -/
def ufs_delete (st : UFS) (filename : String) : UFS × Option Unit :=
  match find st filename with
  | none => ({ st with errno := UFS_ERR_NO_FILE }, none)
  | some f =>
    if f.refs = 0 then
      let st' : UFS := { st with
        file_list := removeFileById st.file_list f.id,
        errno := UFS_ERR_NO_ERR }
      (st', some ())
    else
      let st' : UFS := { st with
        file_list := st.file_list.map (fun g =>
          if g.id = f.id then { g with is_removed := true } else g),
        errno := UFS_ERR_NO_ERR }
      (st', some ())

/-- Structural invariant of the descriptor table: the logical count never
exceeds the capacity, and every slot at or past the count is NULL.  It
holds in the initial state and is preserved by every operation; the
theorems that need it take it as a hypothesis. -/
structure TableInv (st : UFS) : Prop where
  count_le : st.file_descriptor_count ≤ st.file_descriptors.length
  high_none : ∀ i, st.file_descriptor_count ≤ i →
    st.file_descriptors.getD i none = none

end Ufs

namespace Tpool

/-- Modelled from the spec: the compile-time cap on `max_threads` from
`thread_pool.h` (the header is not among the sources); the spec fixes it
only as a positive compile-time constant, taken as `20` here. -/
def TPOOL_MAX_THREADS : Nat := 20

/-- Modelled from the spec: the compile-time cap on `task_total`, taken
as `100000`. -/
def TPOOL_MAX_TASKS : Nat := 100000

/-- Modelled from the spec: the error codes of `thread_pool.h`. -/
inductive TpoolErrorCode
  | TPOOL_ERR_INVALID_ARGUMENT
  | TPOOL_ERR_TOO_MANY_TASKS
  | TPOOL_ERR_TASK_IN_POOL
  | TPOOL_ERR_TASK_NOT_PUSHED
  | TPOOL_ERR_HAS_TASKS
  | TPOOL_ERR_NOT_IMPLEMENTED
deriving DecidableEq, Repr

open TpoolErrorCode

/-- `enum task_state` of `thread_pool.c`. -/
inductive TaskState
  | TASK_NEW
  | TASK_QUEUED
  | TASK_RUNNING
  | TASK_DONE
deriving DecidableEq, Repr

open TaskState

/-- `struct thread_task`, restricted to the fields the verified
properties observe: the state machine and whether `owner` is non-NULL.
`function`, `arg`, `result` and the intrusive queue link carry no
observable content at this level. -/
structure ThreadTask where
  state : TaskState
  hasOwner : Bool
deriving DecidableEq, Repr

/-- `struct thread_pool`: the counters of the C struct.  The FIFO queue
`task_first … task_last` is summarised by its length, which the C code
keeps equal to `task_total`. -/
structure ThreadPool where
  max_threads : Nat
  threads_created : Nat
  threads_busy : Nat
  task_total : Nat
  shutting_down : Bool
deriving DecidableEq, Repr

/-- `thread_pool_new` (lines 90–112; the pool pointer is non-NULL and
allocation succeeds in the model). -/
def thread_pool_new (max_thread_count : Int) :
    Except TpoolErrorCode ThreadPool :=
  if max_thread_count ≤ 0 ∨ max_thread_count > (TPOOL_MAX_THREADS : Int)
  then .error TPOOL_ERR_INVALID_ARGUMENT
  else .ok ⟨max_thread_count.toNat, 0, 0, 0, false⟩

/-- `thread_pool_delete` (lines 118–141): refuse with `HAS_TASKS` while
work is pending or running; otherwise raise the shutdown flag, upon
which every worker exits (each exiting worker decrements
`threads_created`, line 52). -/
def thread_pool_delete (p : ThreadPool) :
    ThreadPool × Option TpoolErrorCode :=
  if p.task_total > 0 ∨ p.threads_busy > 0 then
    (p, some TPOOL_ERR_HAS_TASKS)
  else
    ({ p with shutting_down := true, threads_created := 0 }, none)

/-- `thread_pool_push_task` (lines 144–180): validate, enqueue (state
becomes `QUEUED`, owner set, `task_total` up), and spawn one worker
exactly when every created worker is busy and the cap is not reached
(`pthread_create` succeeds in the model). -/
def thread_pool_push_task (p : ThreadPool) (t : ThreadTask) :
    ThreadPool × ThreadTask × Option TpoolErrorCode :=
  if p.shutting_down then (p, t, some TPOOL_ERR_INVALID_ARGUMENT)
  else if p.task_total ≥ TPOOL_MAX_TASKS then
    (p, t, some TPOOL_ERR_TOO_MANY_TASKS)
  else if t.state ≠ TASK_NEW ∧ t.state ≠ TASK_DONE then
    (p, t, some TPOOL_ERR_TASK_IN_POOL)
  else
    ({ p with
        task_total := p.task_total + 1,
        threads_created :=
          if p.threads_created < p.max_threads
              ∧ p.threads_busy = p.threads_created then
            p.threads_created + 1
          else p.threads_created },
     (⟨TASK_QUEUED, true⟩ : ThreadTask), none)

/-- The dequeue step of `worker_loop` (lines 57–64), performed by an
idle worker: it can fire only while the pool is not shutting down, a
task is queued, and an idle worker exists
(`threads_busy < threads_created` — the executing thread itself). -/
def worker_pickup (p : ThreadPool) : ThreadPool :=
  if ¬ p.shutting_down ∧ 0 < p.task_total
      ∧ p.threads_busy < p.threads_created then
    { p with task_total := p.task_total - 1,
             threads_busy := p.threads_busy + 1 }
  else p

/-- The completion step of `worker_loop` (line 79): the worker that
finished its task becomes idle again. -/
def worker_finish (p : ThreadPool) : ThreadPool :=
  if 0 < p.threads_busy then
    { p with threads_busy := p.threads_busy - 1 }
  else p

/-- `thread_task_new` (lines 182–199; the pointers are non-NULL and
allocation succeeds): state `NEW`, no owner. -/
def thread_task_new : ThreadTask := ⟨TASK_NEW, false⟩

/-- `thread_task_join` (lines 207–218): error when the task was never
pushed, otherwise wait for `DONE` and read the result; the task fields
modelled here are not mutated either way. -/
def thread_task_join (t : ThreadTask) :
    ThreadTask × Option TpoolErrorCode :=
  if t.state = TASK_NEW ∨ t.hasOwner = false then
    (t, some TPOOL_ERR_TASK_NOT_PUSHED)
  else (t, none)

/-- `thread_task_delete` (lines 231–240): refuse while the task is held
by a pool. -/
def thread_task_delete (t : ThreadTask) :
    ThreadTask × Option TpoolErrorCode :=
  if t.state = TASK_QUEUED ∨ t.state = TASK_RUNNING then
    (t, some TPOOL_ERR_TASK_IN_POOL)
  else (t, none)

/-- Pushing `k` fresh tasks one by one into a pool created with cap `M`,
each push immediately followed by an idle worker's pickup when one
exists — the prompt-scheduler run of the spec's growth scenario. -/
def pushPickupIter (M : Nat) : Nat → ThreadPool
  | 0 => ⟨M, 0, 0, 0, false⟩
  | k + 1 =>
    worker_pickup (thread_pool_push_task (pushPickupIter M k)
      thread_task_new).1

/-- The counter sanity invariant of the pool. -/
def PoolInv (p : ThreadPool) : Prop :=
  p.threads_busy ≤ p.threads_created ∧ p.threads_created ≤ p.max_threads

end Tpool

namespace Shell

/-- Modelled from the spec: the expression tags of the external parser
(`parser.h` is not among the sources) — commands, `|`, `&&`, `||`. -/
inductive Expr
  | ECMD (exe : String) (args : List String)
  | EPIPE
  | EAND
  | EOR
deriving DecidableEq, Repr

open Expr

/-- Modelled from the spec: the redirection kinds of a command line. -/
inductive OutputType
  | OUTPUT_TYPE_STDOUT
  | OUTPUT_TYPE_FILE_NEW
  | OUTPUT_TYPE_FILE_APPEND
deriving DecidableEq, Repr

open OutputType

/-- Modelled from the spec: a parsed command line — the expression list
with its redirection target/kind and background flag. -/
structure CommandLine where
  exprs : List Expr
  out_file : Option String
  out_type : OutputType
  is_background : Bool
deriving DecidableEq, Repr

/-- `determine_expression_is_operator`: only `&&` and `||` break the
line into pipeline segments. -/
def determine_expression_is_operator : Expr → Bool
  | EAND => true
  | EOR => true
  | _ => false

/-- The scan `while (a && !is_operator(a)) a = a->next` of
`execute_command_line`: the pipeline segment starting at the cursor. -/
def takeSeg (l : List Expr) : List Expr :=
  l.takeWhile (fun e => !determine_expression_is_operator e)

/-- The rest of the list from the operator that terminated the scan. -/
def dropSeg (l : List Expr) : List Expr :=
  l.dropWhile (fun e => !determine_expression_is_operator e)

/-- `struct exec_result`, restricted to the driver-visible fields (the
background PID hand-off is outside this model). -/
structure ExecResult where
  need_exit : Bool
  return_code : Int
deriving DecidableEq, Repr

/-- One call to `execute_pipeline` as issued by `execute_command_line`:
the segment together with the `out_file`, `out_type` and `should_wait`
arguments it receives. -/
structure PipeCall where
  seg : List Expr
  out_file : Option String
  out_type : OutputType
  should_wait : Bool
deriving DecidableEq, Repr

/-- The arguments `execute_command_line` passes for the segment starting
at a cursor whose rest-of-line is `l`: the line's redirection and
background flag when no operator follows the segment (the flag `c` of
the source), `NULL` / stdout / wait otherwise. -/
def mkCall (line : CommandLine) (l : List Expr) : PipeCall :=
  ⟨takeSeg l,
   if dropSeg l = [] then line.out_file else none,
   if dropSeg l = [] then line.out_type else OUTPUT_TYPE_STDOUT,
   if dropSeg l = [] then !line.is_background else true⟩

/-- The operator walk of `execute_command_line` (its `while (a)` loop):
the cursor advances one expression per iteration; at `&&` after success
or `||` after failure the following segment is executed and the cursor
jumps past it; any other expression is skipped.  The abstract oracle
`run` stands for `execute_pipeline` (a process-spawning function outside
this model), and every call to it is recorded. -/
def execOps (run : PipeCall → ExecResult) (line : CommandLine) :
    List Expr → ExecResult → ExecResult × List PipeCall
  | [], d => (d, [])
  | e :: rest, d =>
    if (e = EAND ∧ d.return_code = 0) ∨ (e = EOR ∧ d.return_code ≠ 0)
    then
      let call := mkCall line rest
      let d2 := run call
      if d2.need_exit then (d2, [call])
      else
        let r := execOps run line (dropSeg rest) d2
        (r.1, call :: r.2)
    else execOps run line rest d
termination_by l d => l.length
decreasing_by
  · show (dropSeg rest).length < (e :: rest).length
    have h := (List.dropWhile_suffix
      (fun e => !determine_expression_is_operator e) (l := rest)).length_le
    simp only [dropSeg, List.length_cons]
    omega
  · show rest.length < (e :: rest).length
    simp only [List.length_cons]
    omega

/-- `execute_command_line` (lines 607–633), instrumented with the list
of pipeline calls it issues: the first segment always runs, then the
operator walk takes over.  The line pointer is non-NULL. -/
def execute_command_line (run : PipeCall → ExecResult)
    (line : CommandLine) : ExecResult × List PipeCall :=
  let call := mkCall line line.exprs
  let d := run call
  if d.need_exit then (d, [call])
  else
    let r := execOps run line (dropSeg line.exprs) d
    (r.1, call :: r.2)

/-- The command line `false && echo A || echo B`. -/
def exampleLine : CommandLine :=
  ⟨[ECMD "false" [], EAND, ECMD "echo" ["A"], EOR, ECMD "echo" ["B"]],
   none, OUTPUT_TYPE_STDOUT, false⟩

/-- A pipeline oracle for the example: the `false` segment exits `1`,
everything else exits `0`, nothing requests shell exit. -/
def exampleRun : PipeCall → ExecResult :=
  fun call => if call.seg = [ECMD "false" []] then ⟨false, 1⟩
    else ⟨false, 0⟩

end Shell

namespace Ufs

theorem splice_nil (C : List Nat) (ℓ : Nat) : splice C ℓ [] = C := by
  simp [splice]

theorem splice_splice (C W B : List Nat) (ℓ : Nat) (hℓ : ℓ ≤ C.length) :
    splice (splice C ℓ W) (ℓ + W.length) B = splice C ℓ (W ++ B) := by
  have htl : (C.take ℓ).length = ℓ := List.length_take_of_le hℓ
  have hlen : (C.take ℓ ++ W).length = ℓ + W.length := by simp [htl]
  have hsp : splice C ℓ W = (C.take ℓ ++ W) ++ C.drop (ℓ + W.length) := by
    simp [splice, List.append_assoc]
  have h1 : (splice C ℓ W).take (ℓ + W.length) = C.take ℓ ++ W := by
    rw [hsp]
    have h := @List.take_append _ (C.take ℓ ++ W) (C.drop (ℓ + W.length)) 0
    rw [hlen] at h
    simpa using h
  have h2 : (splice C ℓ W).drop (ℓ + W.length + B.length)
      = C.drop (ℓ + W.length + B.length) := by
    rw [hsp]
    have h := @List.drop_append _ (C.take ℓ ++ W) (C.drop (ℓ + W.length))
      B.length
    rw [hlen] at h
    rw [h, List.drop_drop]
  show (splice C ℓ W).take (ℓ + W.length) ++ B
      ++ (splice C ℓ W).drop (ℓ + W.length + B.length) = splice C ℓ (W ++ B)
  rw [h1, h2, show ℓ + W.length + B.length = ℓ + (W ++ B).length by
    simp
    omega]
  simp [splice, List.append_assoc]

theorem content_nil : content [] = [] := by simp [content]

theorem content_cons (b : Block) (t : List Block) :
    content (b :: t) = blockContent b ++ content t := by
  simp [content]

theorem content_append (l₁ l₂ : List Block) :
    content (l₁ ++ l₂) = content l₁ ++ content l₂ := by
  simp [content]

theorem blockContent_newBlock : blockContent newBlock = [] := by
  simp [blockContent, newBlock]

theorem blockContent_length (b : Block) :
    (blockContent b).length = min b.occupied b.memory.length := by
  simp [blockContent]

theorem content_length_of_all_full (l : List Block)
    (h : ∀ b ∈ l, (blockContent b).length = BLOCK_SIZE) :
    (content l).length = l.length * BLOCK_SIZE := by
  induction l with
  | nil => simp [content]
  | cons a t ih =>
    rw [content_cons, List.length_append, h a (by simp),
      ih (fun b hb => h b (by simp [hb])), List.length_cons]
    ring

theorem content_length_le (bs : List Block)
    (hmem : ∀ b ∈ bs, b.memory.length = BLOCK_SIZE)
    (hocc : ∀ b ∈ bs, b.occupied ≤ BLOCK_SIZE) :
    (content bs).length ≤ bs.length * BLOCK_SIZE := by
  induction bs with
  | nil => simp [content]
  | cons a t ih =>
    rw [content_cons, List.length_append, List.length_cons]
    have h1 : (blockContent a).length ≤ BLOCK_SIZE := by
      rw [blockContent_length, hmem a (by simp)]
      exact min_le_right _ _
    have h2 := ih (fun b hb => hmem b (by simp [hb])) (fun b hb => hocc b (by simp [hb]))
    calc (blockContent a).length + (content t).length
        ≤ BLOCK_SIZE + t.length * BLOCK_SIZE := by omega
      _ = (t.length + 1) * BLOCK_SIZE := by ring

theorem take_all_full (bs : List Block) (seg : Nat) (hseg : seg < bs.length)
    (hmem : ∀ b ∈ bs, b.memory.length = BLOCK_SIZE)
    (hfull : ∀ i, i + 1 < bs.length → (bs.getD i newBlock).occupied = BLOCK_SIZE) :
    ∀ b ∈ bs.take seg, (blockContent b).length = BLOCK_SIZE := by
  intro b hb
  obtain ⟨i, hi, hbi⟩ := List.mem_iff_getElem.1 hb
  have hi' : i < seg ∧ i < bs.length := by
    simpa using hi
  have hilen : i < bs.length := hi'.2
  have hiseg : i < seg := hi'.1
  have hb' : b = bs[i] := by
    rw [← hbi, List.getElem_take]
  have hfull' : (bs.getD i newBlock).occupied = BLOCK_SIZE := hfull i (by omega)
  rw [List.getD_eq_getElem _ _ hilen] at hfull'
  rw [hb', blockContent_length, hfull', hmem bs[i] (List.getElem_mem hilen)]
  simp

theorem content_take_length (bs : List Block) (seg : Nat) (hseg : seg < bs.length)
    (hmem : ∀ b ∈ bs, b.memory.length = BLOCK_SIZE)
    (hfull : ∀ i, i + 1 < bs.length → (bs.getD i newBlock).occupied = BLOCK_SIZE) :
    (content (bs.take seg)).length = seg * BLOCK_SIZE := by
  rw [content_length_of_all_full _ (take_all_full bs seg hseg hmem hfull),
    List.length_take]
  congr 1
  omega

theorem content_decomp (bs : List Block) (seg : Nat) (hseg : seg < bs.length) :
    content bs = content (bs.take seg) ++ blockContent (bs.getD seg newBlock)
      ++ content (bs.drop (seg + 1)) := by
  have hdrop : bs.drop seg = bs.getD seg newBlock :: bs.drop (seg + 1) := by
    rw [List.getD_eq_getElem _ _ hseg]
    exact (List.drop_eq_getElem_cons hseg)
  conv_lhs => rw [← List.take_append_drop seg bs]
  rw [content_append, hdrop, content_cons]
  simp only [List.append_assoc]

theorem take_middle (P M D : List Nat) (pos : Nat) (hpos : pos ≤ M.length) :
    (P ++ M ++ D).take (P.length + pos) = P ++ M.take pos := by
  rw [List.append_assoc, List.take_append, List.take_append_eq_append_take,
    show pos - M.length = 0 by omega]
  simp

theorem drop_middle (P M D : List Nat) (pos : Nat) (hpos : pos ≤ M.length) :
    (P ++ M ++ D).drop (P.length + pos) = M.drop pos ++ D := by
  rw [List.append_assoc, List.drop_append, List.drop_append_eq_append_drop,
    show pos - M.length = 0 by omega]
  simp

theorem blockContent_write (blk : Block) (pos : Nat) (W : List Nat)
    (hpos : pos ≤ blk.occupied) (hle : pos + W.length ≤ BLOCK_SIZE)
    (hmem : blk.memory.length = BLOCK_SIZE) (hocc : blk.occupied ≤ BLOCK_SIZE) :
    blockContent ⟨blk.memory.take pos ++ W ++ blk.memory.drop (pos + W.length),
      max blk.occupied (pos + W.length)⟩
    = (blockContent blk).take pos ++ W ++ (blockContent blk).drop (pos + W.length) := by
  have htp : (blk.memory.take pos).length = pos :=
    List.length_take_of_le (by omega)
  have hbc : blockContent blk = blk.memory.take blk.occupied := rfl
  have htt : (blockContent blk).take pos = blk.memory.take pos := by
    rw [hbc, List.take_take]
    congr 1
    omega
  rcases Nat.le_total blk.occupied (pos + W.length) with h | h
  · have hmax : max blk.occupied (pos + W.length) = pos + W.length := by omega
    have hdr : (blockContent blk).drop (pos + W.length) = [] := by
      apply List.drop_eq_nil_of_le
      rw [hbc, List.length_take_of_le (by omega)]
      exact h
    rw [hdr, List.append_nil]
    show (blk.memory.take pos ++ W ++ blk.memory.drop (pos + W.length)).take
        (max blk.occupied (pos + W.length)) = _
    rw [hmax]
    have h0 := take_middle (blk.memory.take pos) W (blk.memory.drop (pos + W.length))
      W.length (le_refl _)
    rw [htp] at h0
    rw [h0, htt, List.take_of_length_le (le_refl _)]
  · have hmax : max blk.occupied (pos + W.length) = blk.occupied := by omega
    show (blk.memory.take pos ++ W ++ blk.memory.drop (pos + W.length)).take
        (max blk.occupied (pos + W.length)) = _
    rw [hmax]
    have hocc2 : blk.occupied = (pos + W.length) + (blk.occupied - (pos + W.length)) := by
      omega
    have h0 := @List.take_append _ (blk.memory.take pos ++ W)
      (blk.memory.drop (pos + W.length)) (blk.occupied - (pos + W.length))
    have hlen2 : (blk.memory.take pos ++ W).length = pos + W.length := by
      simp [htp]
    rw [hlen2] at h0
    conv_lhs => rw [hocc2]
    rw [h0, htt, hbc, List.drop_take]

theorem content_set (bs : List Block) (seg : Nat) (hseg : seg < bs.length)
    (b' : Block) :
    content (bs.set seg b') =
      content (bs.take seg) ++ blockContent b' ++ content (bs.drop (seg + 1)) := by
  rw [List.set_eq_take_cons_drop b' hseg, content_append, content_cons]
  simp only [List.append_assoc]

theorem content_write_step (bs : List Block) (seg pos : Nat) (W : List Nat)
    (hseg : seg < bs.length)
    (hmem : ∀ b ∈ bs, b.memory.length = BLOCK_SIZE)
    (hocc : ∀ b ∈ bs, b.occupied ≤ BLOCK_SIZE)
    (hfull : ∀ i, i + 1 < bs.length → (bs.getD i newBlock).occupied = BLOCK_SIZE)
    (hpos : pos ≤ (bs.getD seg newBlock).occupied)
    (hle : pos + W.length ≤ BLOCK_SIZE) :
    content (bs.set seg ⟨(bs.getD seg newBlock).memory.take pos ++ W ++
        (bs.getD seg newBlock).memory.drop (pos + W.length),
        max (bs.getD seg newBlock).occupied (pos + W.length)⟩)
    = splice (content bs) (seg * BLOCK_SIZE + pos) W := by
  have hblkmem : (bs.getD seg newBlock) ∈ bs := by
    rw [List.getD_eq_getElem _ _ hseg]
    exact List.getElem_mem hseg
  have hm : (bs.getD seg newBlock).memory.length = BLOCK_SIZE := hmem _ hblkmem
  have ho : (bs.getD seg newBlock).occupied ≤ BLOCK_SIZE := hocc _ hblkmem
  have hbclen : (blockContent (bs.getD seg newBlock)).length
      = (bs.getD seg newBlock).occupied := by
    rw [blockContent_length, hm]
    omega
  have hP : (content (bs.take seg)).length = seg * BLOCK_SIZE :=
    content_take_length bs seg hseg hmem hfull
  rw [content_set bs seg hseg, blockContent_write _ pos W hpos hle hm ho]
  rw [content_decomp bs seg hseg]
  simp only [splice]
  have htake := take_middle (content (bs.take seg))
    (blockContent (bs.getD seg newBlock)) (content (bs.drop (seg + 1))) pos
    (by omega)
  rw [hP] at htake
  rw [htake]
  have hdropgoal : (content (bs.take seg) ++ blockContent (bs.getD seg newBlock)
      ++ content (bs.drop (seg + 1))).drop (seg * BLOCK_SIZE + pos + W.length)
      = (blockContent (bs.getD seg newBlock)).drop (pos + W.length)
        ++ content (bs.drop (seg + 1)) := by
    by_cases hlast : seg + 1 < bs.length
    · have hoccfull : (bs.getD seg newBlock).occupied = BLOCK_SIZE := hfull seg hlast
      have hd := drop_middle (content (bs.take seg))
        (blockContent (bs.getD seg newBlock)) (content (bs.drop (seg + 1)))
        (pos + W.length) (by omega)
      rw [hP] at hd
      rw [show seg * BLOCK_SIZE + pos + W.length
        = seg * BLOCK_SIZE + (pos + W.length) by omega]
      exact hd
    · have hnil : bs.drop (seg + 1) = [] := List.drop_eq_nil_of_le (by omega)
      rw [hnil, content_nil, List.append_nil, List.append_nil]
      have h0 := @List.drop_append _ (content (bs.take seg))
        (blockContent (bs.getD seg newBlock)) (pos + W.length)
      rw [hP] at h0
      rw [show seg * BLOCK_SIZE + pos + W.length
        = seg * BLOCK_SIZE + (pos + W.length) by omega]
      exact h0
  rw [hdropgoal]
  simp only [List.append_assoc]

theorem blockContent_getD_length (bs : List Block) (seg : Nat)
    (hseg : seg < bs.length)
    (hmem : ∀ b ∈ bs, b.memory.length = BLOCK_SIZE)
    (hocc : ∀ b ∈ bs, b.occupied ≤ BLOCK_SIZE) :
    (blockContent (bs.getD seg newBlock)).length = (bs.getD seg newBlock).occupied := by
  have hblkmem : (bs.getD seg newBlock) ∈ bs := by
    rw [List.getD_eq_getElem _ _ hseg]
    exact List.getElem_mem hseg
  rw [blockContent_length, hmem _ hblkmem]
  have := hocc _ hblkmem
  omega

theorem pos_le_content_length (bs : List Block) (seg pos : Nat)
    (hseg : seg < bs.length)
    (hmem : ∀ b ∈ bs, b.memory.length = BLOCK_SIZE)
    (hocc : ∀ b ∈ bs, b.occupied ≤ BLOCK_SIZE)
    (hfull : ∀ i, i + 1 < bs.length → (bs.getD i newBlock).occupied = BLOCK_SIZE)
    (hpos : pos ≤ (bs.getD seg newBlock).occupied) :
    seg * BLOCK_SIZE + pos ≤ (content bs).length := by
  rw [content_decomp bs seg hseg]
  simp only [List.length_append]
  rw [content_take_length bs seg hseg hmem hfull,
    blockContent_getD_length bs seg hseg hmem hocc]
  omega

theorem wfBlocks_set (bs : List Block) (seg : Nat) (hseg : seg < bs.length)
    (b' : Block) (hwf : WfBlocks bs) (hmem' : b'.memory.length = BLOCK_SIZE)
    (hocc' : b'.occupied ≤ BLOCK_SIZE)
    (hfull' : seg + 1 < bs.length → b'.occupied = BLOCK_SIZE) :
    WfBlocks (bs.set seg b') := by
  have hlen : (bs.set seg b').length = bs.length := List.length_set bs seg b'
  constructor
  · intro hnil
    rw [← List.length_eq_zero] at hnil
    rw [hlen] at hnil
    omega
  · intro b hb
    rcases List.mem_or_eq_of_mem_set hb with h | h
    · exact hwf.mem_len _ h
    · rw [h]
      exact hmem'
  · intro b hb
    rcases List.mem_or_eq_of_mem_set hb with h | h
    · exact hwf.occ_le _ h
    · rw [h]
      exact hocc'
  · intro i hi
    rw [hlen] at hi
    have hilen : i < bs.length := by omega
    rw [List.getD_eq_getElem _ _ (by rw [hlen]; exact hilen)]
    by_cases hiseg : i = seg
    · subst hiseg
      rw [List.getElem_set_self]
      exact hfull' hi
    · rw [List.getElem_set_ne (by omega)]
      have := hwf.full i hi
      rw [List.getD_eq_getElem _ _ hilen] at this
      exact this

theorem content_append_newBlock (bs : List Block) :
    content (bs ++ [newBlock]) = content bs := by
  rw [content_append, content_cons, content_nil, blockContent_newBlock]
  simp

theorem wfBlocks_append_newBlock (bs : List Block) (hwf : WfBlocks bs)
    (hlast : (bs.getD (bs.length - 1) newBlock).occupied = BLOCK_SIZE) :
    WfBlocks (bs ++ [newBlock]) := by
  have hne : bs.length ≠ 0 := by
    intro h
    exact hwf.ne (List.length_eq_zero.1 h)
  constructor
  · simp
  · intro b hb
    rcases List.mem_append.1 hb with h | h
    · exact hwf.mem_len _ h
    · rw [List.mem_singleton.1 h]
      simp [newBlock]
  · intro b hb
    rcases List.mem_append.1 hb with h | h
    · exact hwf.occ_le _ h
    · rw [List.mem_singleton.1 h]
      simp [newBlock]
  · intro i hi
    simp only [List.length_append, List.length_singleton] at hi
    have hilen : i < bs.length := by omega
    rw [List.getD_eq_getElem _ _ (by simp; omega), List.getElem_append_left hilen]
    by_cases hterm : i + 1 < bs.length
    · have := hwf.full i hterm
      rw [List.getD_eq_getElem _ _ hilen] at this
      exact this
    · have hieq : i = bs.length - 1 := by omega
      rw [← List.getD_eq_getElem _ _ hilen, hieq]
      exact hlast

theorem writeLoop_nil (bs : List Block) (seg pos : Nat) :
    writeLoop bs seg pos [] = (bs, seg, pos) := by
  rw [writeLoop.eq_def]
  simp

theorem writeLoop_boundary_next (bs : List Block) (seg : Nat) (B : List Nat)
    (hB : B ≠ []) (hnext : seg + 1 < bs.length) :
    writeLoop bs seg BLOCK_SIZE B = writeLoop bs (seg + 1) 0 B := by
  rw [writeLoop.eq_def]
  simp only [if_neg hB, if_pos hnext]
  simp

theorem writeLoop_boundary_alloc (bs : List Block) (seg : Nat) (B : List Nat)
    (hB : B ≠ []) (hnext : ¬ (seg + 1 < bs.length)) :
    writeLoop bs seg BLOCK_SIZE B = writeLoop (bs ++ [newBlock]) (seg + 1) 0 B := by
  rw [writeLoop.eq_def]
  simp only [if_neg hB, if_neg hnext]
  simp

theorem writeLoop_write (bs : List Block) (seg pos : Nat) (B : List Nat)
    (hB : B ≠ []) (hpos : pos ≠ BLOCK_SIZE)
    (hc : min (BLOCK_SIZE - pos) B.length ≠ 0) :
    writeLoop bs seg pos B =
      writeLoop (bs.set seg
        ⟨(bs.getD seg newBlock).memory.take pos
            ++ B.take (min (BLOCK_SIZE - pos) B.length)
            ++ (bs.getD seg newBlock).memory.drop
                (pos + min (BLOCK_SIZE - pos) B.length),
          max (bs.getD seg newBlock).occupied
            (pos + min (BLOCK_SIZE - pos) B.length)⟩)
        seg (pos + min (BLOCK_SIZE - pos) B.length)
        (B.drop (min (BLOCK_SIZE - pos) B.length)) := by
  rw [writeLoop.eq_def]
  simp only [if_neg hB, if_neg hpos, if_neg hc]

theorem writeLoop_spec (bs : List Block) (seg pos : Nat) (B : List Nat) :
    WfBlocks bs → seg < bs.length → pos ≤ (bs.getD seg newBlock).occupied →
    content (writeLoop bs seg pos B).1
      = splice (content bs) (seg * BLOCK_SIZE + pos) B
    ∧ WfBlocks (writeLoop bs seg pos B).1
    ∧ (writeLoop bs seg pos B).2.1 < (writeLoop bs seg pos B).1.length
    ∧ (writeLoop bs seg pos B).2.1 * BLOCK_SIZE + (writeLoop bs seg pos B).2.2
      = seg * BLOCK_SIZE + pos + B.length
    ∧ (writeLoop bs seg pos B).2.2
      ≤ ((writeLoop bs seg pos B).1.getD (writeLoop bs seg pos B).2.1 newBlock).occupied := by
  induction bs, seg, pos, B using writeLoop.induct with
  | case1 bs seg pos =>
    intro hwf hseg hpos
    rw [writeLoop_nil]
    exact ⟨(splice_nil _ _).symm, hwf, hseg, by simp, hpos⟩
  | case2 bs seg B hB hnext ih =>
    intro hwf hseg hpos
    rw [writeLoop_boundary_next bs seg B hB hnext]
    obtain ⟨ih1, ih2, ih3, ih4, ih5⟩ := ih hwf hnext (by omega)
    have hidx : (seg + 1) * BLOCK_SIZE + 0 = seg * BLOCK_SIZE + BLOCK_SIZE := by
      rw [Nat.succ_mul]
      omega
    refine ⟨?_, ih2, ih3, ?_, ih5⟩
    · rw [ih1, hidx]
    · rw [ih4, Nat.succ_mul]
      omega
  | case3 bs seg B hB hnext ih =>
    intro hwf hseg hpos
    rw [writeLoop_boundary_alloc bs seg B hB hnext]
    have hlast : (bs.getD (bs.length - 1) newBlock).occupied = BLOCK_SIZE := by
      have hocc := hwf.occ_le (bs.getD seg newBlock) (by
        rw [List.getD_eq_getElem _ _ hseg]
        exact List.getElem_mem hseg)
      have hfull : (bs.getD seg newBlock).occupied = BLOCK_SIZE := by omega
      rw [show bs.length - 1 = seg by omega]
      exact hfull
    have hwf2 : WfBlocks (bs ++ [newBlock]) := wfBlocks_append_newBlock bs hwf hlast
    have hseg2 : seg + 1 < (bs ++ [newBlock]).length := by
      simp
      omega
    obtain ⟨ih1, ih2, ih3, ih4, ih5⟩ := ih hwf2 hseg2 (by omega)
    have hidx : (seg + 1) * BLOCK_SIZE + 0 = seg * BLOCK_SIZE + BLOCK_SIZE := by
      rw [Nat.succ_mul]
      omega
    refine ⟨?_, ih2, ih3, ?_, ih5⟩
    · rw [ih1, content_append_newBlock, hidx]
    · rw [ih4, Nat.succ_mul]
      omega
  | case4 bs seg pos B hB hposBS c hc =>
    intro hwf hseg hpos
    exfalso
    have hocc := hwf.occ_le (bs.getD seg newBlock) (by
      rw [List.getD_eq_getElem _ _ hseg]
      exact List.getElem_mem hseg)
    have hBlen : B.length ≠ 0 := by simpa using hB
    have hne : min (BLOCK_SIZE - pos) B.length ≠ 0 := by
      omega
    exact hne hc
  | case5 bs seg pos B hB hposBS blk c hc blk2 ih =>
    intro hwf hseg hpos
    have hblkmem : bs.getD seg newBlock ∈ bs := by
      rw [List.getD_eq_getElem _ _ hseg]
      exact List.getElem_mem hseg
    have hoccb : blk.occupied ≤ BLOCK_SIZE := hwf.occ_le _ hblkmem
    have hmb : blk.memory.length = BLOCK_SIZE := hwf.mem_len _ hblkmem
    have hposlt : pos < BLOCK_SIZE := by
      have : pos ≤ blk.occupied := hpos
      omega
    have hcmin : c = min (BLOCK_SIZE - pos) B.length := rfl
    have hcle : c ≤ B.length := by
      rw [hcmin]
      exact Nat.min_le_right _ _
    have hcbs : c ≤ BLOCK_SIZE - pos := by
      rw [hcmin]
      exact Nat.min_le_left _ _
    have hc1 : 1 ≤ c := by
      rcases Nat.eq_zero_or_pos c with h | h
      · exact absurd h hc
      · exact h
    have hWc : (B.take c).length = c := List.length_take_of_le hcle
    have hple : pos + c ≤ BLOCK_SIZE := by omega
    have hstep : writeLoop bs seg pos B
        = writeLoop (bs.set seg blk2) seg (pos + c) (B.drop c) :=
      writeLoop_write bs seg pos B hB hposBS hc
    rw [hstep]
    have hseg1 : seg < (bs.set seg blk2).length := by
      rw [List.length_set]
      exact hseg
    have hwf1 : WfBlocks (bs.set seg blk2) := by
      apply wfBlocks_set bs seg hseg _ hwf
      · show (blk.memory.take pos ++ B.take c ++ blk.memory.drop (pos + c)).length
            = BLOCK_SIZE
        simp only [List.length_append, List.length_take, List.length_drop, hWc, hmb]
        omega
      · show max blk.occupied (pos + c) ≤ BLOCK_SIZE
        omega
      · intro hterm
        have hfs : blk.occupied = BLOCK_SIZE := hwf.full seg hterm
        show max blk.occupied (pos + c) = BLOCK_SIZE
        omega
    have hpos1 : pos + c ≤ ((bs.set seg blk2).getD seg newBlock).occupied := by
      rw [List.getD_eq_getElem _ _ hseg1, List.getElem_set_self]
      exact le_max_right _ _
    obtain ⟨ih1, ih2, ih3, ih4, ih5⟩ := ih hwf1 hseg1 hpos1
    refine ⟨?_, ih2, ih3, ?_, ih5⟩
    · rw [ih1]
      have hcw : content (bs.set seg blk2)
          = splice (content bs) (seg * BLOCK_SIZE + pos) (B.take c) := by
        have h := content_write_step bs seg pos (B.take c) hseg hwf.mem_len
          hwf.occ_le hwf.full hpos (by rw [hWc]; exact hple)
        rw [hWc] at h
        exact h
      rw [hcw]
      have hidx : seg * BLOCK_SIZE + (pos + c)
          = (seg * BLOCK_SIZE + pos) + (B.take c).length := by
        rw [hWc]
        omega
      rw [hidx, splice_splice _ _ _ _ (pos_le_content_length bs seg pos hseg
        hwf.mem_len hwf.occ_le hwf.full hpos), List.take_append_drop]
    · rw [ih4, List.length_drop]
      omega

theorem readLoop_zero (bs : List Block) (seg pos : Nat) :
    readLoop bs seg pos 0 = ([], seg, pos) := by
  rw [readLoop.eq_def]
  simp

theorem readLoop_boundary_next (bs : List Block) (seg size : Nat)
    (hsize : size ≠ 0) (hnext : seg + 1 < bs.length) :
    readLoop bs seg BLOCK_SIZE size = readLoop bs (seg + 1) 0 size := by
  rw [readLoop.eq_def]
  simp only [if_neg hsize, if_pos hnext]
  simp

theorem readLoop_boundary_end (bs : List Block) (seg size : Nat)
    (hsize : size ≠ 0) (hnext : ¬ (seg + 1 < bs.length)) :
    readLoop bs seg BLOCK_SIZE size = ([], seg, BLOCK_SIZE) := by
  rw [readLoop.eq_def]
  simp only [if_neg hsize, if_neg hnext]
  simp

theorem readLoop_bytes_zero (bs : List Block) (seg pos size : Nat)
    (hsize : size ≠ 0) (hpos : pos ≠ BLOCK_SIZE)
    (hbytes : min ((bs.getD seg newBlock).occupied - pos) size = 0) :
    readLoop bs seg pos size = ([], seg, pos) := by
  rw [readLoop.eq_def]
  simp only [if_neg hsize, if_neg hpos, if_pos hbytes]

theorem readLoop_copy (bs : List Block) (seg pos size : Nat)
    (hsize : size ≠ 0) (hpos : pos ≠ BLOCK_SIZE)
    (hbytes : min ((bs.getD seg newBlock).occupied - pos) size ≠ 0) :
    readLoop bs seg pos size =
      (((bs.getD seg newBlock).memory.drop pos).take
          (min ((bs.getD seg newBlock).occupied - pos) size)
        ++ (readLoop bs seg
            (pos + min ((bs.getD seg newBlock).occupied - pos) size)
            (size - min ((bs.getD seg newBlock).occupied - pos) size)).1,
       (readLoop bs seg
            (pos + min ((bs.getD seg newBlock).occupied - pos) size)
            (size - min ((bs.getD seg newBlock).occupied - pos) size)).2.1,
       (readLoop bs seg
            (pos + min ((bs.getD seg newBlock).occupied - pos) size)
            (size - min ((bs.getD seg newBlock).occupied - pos) size)).2.2) := by
  rw [readLoop.eq_def]
  simp only [if_neg hsize, if_neg hpos, if_neg hbytes]

/-- Full behavioural specification of the read loop on a well-formed chain:
it returns exactly the `size`-byte window of the payload starting at the
linear cursor position (shorter at end of file) and advances the cursor by
the number of bytes returned. -/
theorem readLoop_spec (bs : List Block) (seg pos size : Nat) :
    WfBlocks bs → seg < bs.length → pos ≤ (bs.getD seg newBlock).occupied →
    (readLoop bs seg pos size).1
      = ((content bs).drop (seg * BLOCK_SIZE + pos)).take size
    ∧ (readLoop bs seg pos size).2.1 * BLOCK_SIZE + (readLoop bs seg pos size).2.2
      = seg * BLOCK_SIZE + pos + (readLoop bs seg pos size).1.length
    ∧ (readLoop bs seg pos size).2.1 < bs.length
    ∧ (readLoop bs seg pos size).2.2
      ≤ (bs.getD (readLoop bs seg pos size).2.1 newBlock).occupied := by
  induction seg, pos, size using readLoop.induct bs with
  | case1 seg pos =>
    intro hwf hseg hpos
    rw [readLoop_zero]
    refine ⟨by simp, by simp, hseg, hpos⟩
  | case2 seg size hsize hnext ih =>
    intro hwf hseg hpos
    rw [readLoop_boundary_next bs seg size hsize hnext]
    obtain ⟨ih1, ih2, ih3, ih4⟩ := ih hwf hnext (by omega)
    have hidx : (seg + 1) * BLOCK_SIZE + 0 = seg * BLOCK_SIZE + BLOCK_SIZE := by
      rw [Nat.succ_mul]
      omega
    refine ⟨?_, ?_, ih3, ih4⟩
    · rw [ih1, hidx]
    · rw [ih2, hidx]
  | case3 seg size hsize hnext =>
    intro hwf hseg hpos
    rw [readLoop_boundary_end bs seg size hsize hnext]
    have hlen : (content bs).length ≤ seg * BLOCK_SIZE + BLOCK_SIZE := by
      have h1 := content_length_le bs hwf.mem_len hwf.occ_le
      have h2 : bs.length = seg + 1 := by omega
      rw [h2, Nat.succ_mul] at h1
      omega
    refine ⟨?_, by simp, hseg, hpos⟩
    rw [List.drop_eq_nil_of_le hlen]
    simp
  | case4 seg pos size hsize hposBS blk bytes hbytes =>
    intro hwf hseg hpos
    rw [readLoop_bytes_zero bs seg pos size hsize hposBS hbytes]
    have hocceq : (bs.getD seg newBlock).occupied = pos := by
      have : min ((bs.getD seg newBlock).occupied - pos) size = 0 := hbytes
      omega
    have hlast : ¬ (seg + 1 < bs.length) := by
      intro hterm
      have := hwf.full seg hterm
      omega
    have hClen : (content bs).length = seg * BLOCK_SIZE + pos := by
      rw [content_decomp bs seg hseg]
      simp only [List.length_append]
      rw [content_take_length bs seg hseg hwf.mem_len hwf.full,
        blockContent_getD_length bs seg hseg hwf.mem_len hwf.occ_le,
        List.drop_eq_nil_of_le (show bs.length ≤ seg + 1 by omega), content_nil]
      simp
      rw [List.getD_eq_getElem?_getD] at hocceq
      exact hocceq
    refine ⟨?_, by simp, hseg, hpos⟩
    rw [List.drop_eq_nil_of_le (le_of_eq hClen)]
    simp
  | case5 seg pos size hsize hposBS blk bytes hbytes ih =>
    intro hwf hseg hpos
    have hblkmem : bs.getD seg newBlock ∈ bs := by
      rw [List.getD_eq_getElem _ _ hseg]
      exact List.getElem_mem hseg
    have hoccb : blk.occupied ≤ BLOCK_SIZE := hwf.occ_le _ hblkmem
    have hmb : blk.memory.length = BLOCK_SIZE := hwf.mem_len _ hblkmem
    have hbmin : bytes = min (blk.occupied - pos) size := rfl
    have hble : bytes ≤ size := by
      rw [hbmin]
      exact Nat.min_le_right _ _
    have hbocc : bytes ≤ blk.occupied - pos := by
      rw [hbmin]
      exact Nat.min_le_left _ _
    have hb1 : 1 ≤ bytes := by
      rcases Nat.eq_zero_or_pos bytes with h | h
      · exact absurd h hbytes
      · exact h
    have hposocc : pos ≤ blk.occupied := hpos
    have hbeq : blk.occupied = (bs.getD seg newBlock).occupied := rfl
    have hstep : readLoop bs seg pos size
        = ((blk.memory.drop pos).take bytes
            ++ (readLoop bs seg (pos + bytes) (size - bytes)).1,
           (readLoop bs seg (pos + bytes) (size - bytes)).2.1,
           (readLoop bs seg (pos + bytes) (size - bytes)).2.2) :=
      readLoop_copy bs seg pos size hsize hposBS hbytes
    rw [hstep]
    have hpos1 : pos + bytes ≤ (bs.getD seg newBlock).occupied := by omega
    obtain ⟨ih1, ih2, ih3, ih4⟩ := ih hwf hseg hpos1
    have hbclen : (blockContent (bs.getD seg newBlock)).length = blk.occupied :=
      blockContent_getD_length bs seg hseg hwf.mem_len hwf.occ_le
    have hCdrop : (content bs).drop (seg * BLOCK_SIZE + pos)
        = (blockContent (bs.getD seg newBlock)).drop pos
          ++ content (bs.drop (seg + 1)) := by
      have hd := drop_middle (content (bs.take seg))
        (blockContent (bs.getD seg newBlock)) (content (bs.drop (seg + 1))) pos
        (by omega)
      rw [content_take_length bs seg hseg hwf.mem_len hwf.full] at hd
      rw [content_decomp bs seg hseg]
      exact hd
    have hbcdrop : (blockContent (bs.getD seg newBlock)).drop pos
        = (blk.memory.drop pos).take (blk.occupied - pos) := by
      show ((blk.memory.take blk.occupied).drop pos) = _
      rw [List.drop_take]
    have hpiece : ((content bs).drop (seg * BLOCK_SIZE + pos)).take bytes
        = (blk.memory.drop pos).take bytes := by
      rw [hCdrop, List.take_append_eq_append_take,
        show bytes - ((blockContent (bs.getD seg newBlock)).drop pos).length = 0 by
          rw [List.length_drop, hbclen]
          omega]
      rw [hbcdrop, List.take_take, List.take_zero, List.append_nil]
      congr 1
      omega
    have hdd : ((content bs).drop (seg * BLOCK_SIZE + pos)).drop bytes
        = (content bs).drop (seg * BLOCK_SIZE + (pos + bytes)) := by
      rw [List.drop_drop]
      apply congrArg (fun n => List.drop n (content bs))
      omega
    refine ⟨?_, ?_, ih3, ih4⟩
    · have hsplit : ((content bs).drop (seg * BLOCK_SIZE + pos)).take size
          = ((content bs).drop (seg * BLOCK_SIZE + pos)).take bytes
            ++ (((content bs).drop (seg * BLOCK_SIZE + pos)).drop bytes).take
                (size - bytes) := by
        rw [← List.take_add]
        congr 1
        omega
      show (blk.memory.drop pos).take bytes
          ++ (readLoop bs seg (pos + bytes) (size - bytes)).1 = _
      rw [ih1, hsplit, hpiece, hdd]
    · show (readLoop bs seg (pos + bytes) (size - bytes)).2.1 * BLOCK_SIZE
          + (readLoop bs seg (pos + bytes) (size - bytes)).2.2 = _
      rw [ih2]
      simp only [List.length_append, List.length_take, List.length_drop, hmb]
      omega

theorem c1_s1 : ufs_open ufs_initial "f" UFS_CREATE
    = ({ file_list := [⟨0, [newBlock], 1, "f", false⟩],
         file_descriptors := some ⟨0, 0, UFS_CREATE, 0⟩ :: List.replicate 9 none,
         file_descriptor_count := 1, next_id := 1, errno := UFS_ERR_NO_ERR },
       some 0) := by
  rfl

theorem ufs_read_ok (st : UFS) (fd : Nat) (size : Nat) (desc : Filedesc)
    (file : UFile)
    (hloc : locate_descriptor st fd = some desc)
    (hr : is_readable desc = true)
    (hfind : st.file_list.find? (fun f => f.id == desc.file_id) = some file) :
    ufs_read st fd size
      = (⟨st.file_list,
          st.file_descriptors.set fd (some ⟨desc.file_id,
            (readLoop file.block_list desc.curr_data_segment desc.byte_pos
              size).2.1,
            desc.flags,
            (readLoop file.block_list desc.curr_data_segment desc.byte_pos
              size).2.2⟩),
          st.file_descriptor_count, st.next_id, UFS_ERR_NO_ERR⟩,
        some (readLoop file.block_list desc.curr_data_segment desc.byte_pos
          size).1) := by
  unfold ufs_read
  rw [hloc]
  dsimp only []
  rw [hr, if_neg (by simp), hfind]

theorem ufs_read_no_permission (st : UFS) (fd : Nat) (size : Nat)
    (desc : Filedesc)
    (hloc : locate_descriptor st fd = some desc)
    (hr : is_readable desc = false) :
    ufs_read st fd size
      = (⟨st.file_list, st.file_descriptors, st.file_descriptor_count,
          st.next_id, UFS_ERR_NO_PERMISSION⟩, none) := by
  unfold ufs_read
  rw [hloc]
  dsimp only []
  rw [hr, if_pos (by simp)]

theorem ufs_write_ok (st : UFS) (fd : Nat) (buf : List Nat) (desc : Filedesc)
    (file : UFile)
    (hloc : locate_descriptor st fd = some desc)
    (hw : is_writable desc = true)
    (hfind : st.file_list.find? (fun f => f.id == desc.file_id) = some file)
    (hguard : ¬ ((file.block_list.getD desc.curr_data_segment newBlock).occupied
      + desc.curr_data_segment * BLOCK_SIZE + buf.length > MAX_FILE_SIZE)) :
    ufs_write st fd buf
      = (⟨st.file_list.map (fun g =>
            if g.id = file.id then
              ⟨g.id, (writeLoop file.block_list desc.curr_data_segment
                desc.byte_pos buf).1, g.refs, g.name, g.is_removed⟩
            else g),
          st.file_descriptors.set fd (some ⟨desc.file_id,
            (writeLoop file.block_list desc.curr_data_segment desc.byte_pos
              buf).2.1,
            desc.flags,
            (writeLoop file.block_list desc.curr_data_segment desc.byte_pos
              buf).2.2⟩),
          st.file_descriptor_count, st.next_id, UFS_ERR_NO_ERR⟩,
        some buf.length) := by
  unfold ufs_write
  rw [hloc]
  dsimp only []
  rw [hw, if_neg (by simp), hfind]
  dsimp only []
  rw [if_neg hguard]

theorem ufs_write_reject (st : UFS) (fd : Nat) (buf : List Nat)
    (desc : Filedesc) (file : UFile)
    (hloc : locate_descriptor st fd = some desc)
    (hw : is_writable desc = true)
    (hfind : st.file_list.find? (fun f => f.id == desc.file_id) = some file)
    (hguard : (file.block_list.getD desc.curr_data_segment newBlock).occupied
      + desc.curr_data_segment * BLOCK_SIZE + buf.length > MAX_FILE_SIZE) :
    ufs_write st fd buf
      = (⟨st.file_list, st.file_descriptors, st.file_descriptor_count,
          st.next_id, UFS_ERR_NO_MEM⟩, none) := by
  unfold ufs_write
  rw [hloc]
  dsimp only []
  rw [hw, if_neg (by simp), hfind]
  dsimp only []
  rw [if_pos hguard]

theorem ufs_write_no_permission (st : UFS) (fd : Nat) (buf : List Nat)
    (desc : Filedesc)
    (hloc : locate_descriptor st fd = some desc)
    (hw : is_writable desc = false) :
    ufs_write st fd buf
      = (⟨st.file_list, st.file_descriptors, st.file_descriptor_count,
          st.next_id, UFS_ERR_NO_PERMISSION⟩, none) := by
  unfold ufs_write
  rw [hloc]
  dsimp only []
  rw [hw, if_pos (by simp)]

theorem c1_w (B : List Nat) (hB : B.length ≤ MAX_FILE_SIZE) :
    ufs_write
      ⟨[⟨0, [newBlock], 1, "f", false⟩],
        some ⟨0, 0, UFS_CREATE, 0⟩ :: List.replicate 9 none, 1, 1,
        UFS_ERR_NO_ERR⟩ 0 B
    = (⟨[⟨0, (writeLoop [newBlock] 0 0 B).1, 1, "f", false⟩],
        some ⟨0, (writeLoop [newBlock] 0 0 B).2.1, UFS_CREATE,
          (writeLoop [newBlock] 0 0 B).2.2⟩ :: List.replicate 9 none, 1, 1,
        UFS_ERR_NO_ERR⟩,
       some B.length) := by
  have hg : ¬ (B.length > MAX_FILE_SIZE) := by omega
  dsimp only [ufs_write, locate_descriptor]
  simp [is_writable, UFS_CREATE, newBlock, hg]

theorem c1_close (B : List Nat) :
    ufs_close
      ⟨[⟨0, (writeLoop [newBlock] 0 0 B).1, 1, "f", false⟩],
        some ⟨0, (writeLoop [newBlock] 0 0 B).2.1, UFS_CREATE,
          (writeLoop [newBlock] 0 0 B).2.2⟩ :: List.replicate 9 none, 1, 1,
        UFS_ERR_NO_ERR⟩ 0
    = (⟨[⟨0, (writeLoop [newBlock] 0 0 B).1, 0, "f", false⟩],
        none :: List.replicate 9 none, 0, 1, UFS_ERR_NO_ERR⟩,
       some ()) := by
  unfold ufs_close
  simp [adjust_container_capacity, shrink_count, DESCRIPTOR_POOL_START_SIZE,
    CAPACITY_MULTIPLIER]

theorem c1_open2 (B : List Nat) :
    ufs_open
      ⟨[⟨0, (writeLoop [newBlock] 0 0 B).1, 0, "f", false⟩],
        none :: List.replicate 9 none, 0, 1, UFS_ERR_NO_ERR⟩ "f" UFS_READ_ONLY
    = (⟨[⟨0, (writeLoop [newBlock] 0 0 B).1, 1, "f", false⟩],
        some ⟨0, 0, UFS_READ_ONLY, 0⟩ :: List.replicate 9 none, 1, 1,
        UFS_ERR_NO_ERR⟩,
       some 0) := by
  unfold ufs_open ufs_open_body smallest_fd find
  simp

theorem wfBlocks_newBlock : WfBlocks [newBlock] := by
  constructor
  · simp
  · intro b hb
    rw [List.mem_singleton.1 hb]
    simp [newBlock]
  · intro b hb
    rw [List.mem_singleton.1 hb]
    simp [newBlock]
  · intro i hi
    simp at hi

theorem content_newBlock_single : content [newBlock] = [] := by
  rw [content_cons, content_nil, blockContent_newBlock]
  rfl

theorem c1_write_facts (B : List Nat) :
    content (writeLoop [newBlock] 0 0 B).1 = B
    ∧ WfBlocks (writeLoop [newBlock] 0 0 B).1
    ∧ (writeLoop [newBlock] 0 0 B).2.1 < (writeLoop [newBlock] 0 0 B).1.length
    ∧ (writeLoop [newBlock] 0 0 B).2.1 * BLOCK_SIZE
        + (writeLoop [newBlock] 0 0 B).2.2 = B.length := by
  have h := writeLoop_spec [newBlock] 0 0 B wfBlocks_newBlock (by simp)
    (by simp [newBlock])
  obtain ⟨h1, h2, h3, h4, _⟩ := h
  rw [content_newBlock_single] at h1
  refine ⟨?_, h2, h3, ?_⟩
  · rw [h1]
    simp [splice]
  · omega

set_option maxRecDepth 8192 in
/-- Claim C1: UFS round-trip.  For every byte sequence `B` of at most
100 MiB, starting from the initial module state: opening a fresh file with
`CREATE` yields descriptor 0; writing `B` through it returns `B.length`;
closing succeeds; reopening the file read-only yields descriptor 0 again;
a read of `B.length` bytes returns exactly `B`; and the next read returns
no bytes (the C call returns 0), i.e. reading until 0 yields exactly `B`. -/
theorem C1_ufs_round_trip (B : List Nat) (hB : B.length ≤ MAX_FILE_SIZE) :
    (ufs_open ufs_initial "f" UFS_CREATE).2 = some 0
    ∧ (ufs_write (ufs_open ufs_initial "f" UFS_CREATE).1 0 B).2 = some B.length
    ∧ (ufs_close (ufs_write (ufs_open ufs_initial "f" UFS_CREATE).1 0 B).1
        0).2 = some ()
    ∧ (ufs_open (ufs_close (ufs_write (ufs_open ufs_initial "f" UFS_CREATE).1
        0 B).1 0).1 "f" UFS_READ_ONLY).2 = some 0
    ∧ (ufs_read (ufs_open (ufs_close (ufs_write
        (ufs_open ufs_initial "f" UFS_CREATE).1 0 B).1 0).1 "f"
        UFS_READ_ONLY).1 0 B.length).2 = some B
    ∧ (ufs_read (ufs_read (ufs_open (ufs_close (ufs_write
        (ufs_open ufs_initial "f" UFS_CREATE).1 0 B).1 0).1 "f"
        UFS_READ_ONLY).1 0 B.length).1 0 1).2 = some [] := by
  obtain ⟨hc, hwfw, hseg, hposmax⟩ := c1_write_facts B
  have h1 : ufs_open ufs_initial "f" UFS_CREATE
      = (⟨[⟨0, [newBlock], 1, "f", false⟩],
          some ⟨0, 0, UFS_CREATE, 0⟩ :: List.replicate 9 none, 1, 1,
          UFS_ERR_NO_ERR⟩, some 0) := c1_s1
  have h2 := c1_w B hB
  have h3 := c1_close B
  have h4 := c1_open2 B
  rw [h1]
  dsimp only []
  rw [h2]
  dsimp only []
  rw [h3]
  dsimp only []
  rw [h4]
  dsimp only []
  -- the first read
  have hlen : (writeLoop [newBlock] 0 0 B).1.length ≥ 1 := by
    rcases Nat.eq_zero_or_pos (writeLoop [newBlock] 0 0 B).1.length with h | h
    · exact absurd (List.length_eq_zero.1 h) hwfw.ne
    · omega
  have hr1 := ufs_read_ok
    ⟨[⟨0, (writeLoop [newBlock] 0 0 B).1, 1, "f", false⟩],
      some ⟨0, 0, UFS_READ_ONLY, 0⟩ :: List.replicate 9 none, 1, 1,
      UFS_ERR_NO_ERR⟩ 0 B.length ⟨0, 0, UFS_READ_ONLY, 0⟩
    ⟨0, (writeLoop [newBlock] 0 0 B).1, 1, "f", false⟩ rfl rfl rfl
  rw [hr1]
  dsimp only []
  simp only [List.set_cons_zero]
  have hrs := readLoop_spec (writeLoop [newBlock] 0 0 B).1 0 0 B.length hwfw
    (by omega) (by simp)
  obtain ⟨hrs1, hrs2, hrs3, hrs4⟩ := hrs
  have hread1 : (readLoop (writeLoop [newBlock] 0 0 B).1 0 0 B.length).1 = B := by
    rw [hrs1, hc]
    simp
  rw [hread1]
  -- the second read
  have hr2 := ufs_read_ok
    ⟨[⟨0, (writeLoop [newBlock] 0 0 B).1, 1, "f", false⟩],
      some ⟨0, (readLoop (writeLoop [newBlock] 0 0 B).1 0 0 B.length).2.1,
        UFS_READ_ONLY,
        (readLoop (writeLoop [newBlock] 0 0 B).1 0 0 B.length).2.2⟩
        :: List.replicate 9 none, 1, 1, UFS_ERR_NO_ERR⟩ 0 1
    ⟨0, (readLoop (writeLoop [newBlock] 0 0 B).1 0 0 B.length).2.1,
      UFS_READ_ONLY,
      (readLoop (writeLoop [newBlock] 0 0 B).1 0 0 B.length).2.2⟩
    ⟨0, (writeLoop [newBlock] 0 0 B).1, 1, "f", false⟩ rfl rfl rfl
  have hrs' := readLoop_spec (writeLoop [newBlock] 0 0 B).1
    (readLoop (writeLoop [newBlock] 0 0 B).1 0 0 B.length).2.1
    (readLoop (writeLoop [newBlock] 0 0 B).1 0 0 B.length).2.2 1 hwfw hrs3 hrs4
  have hread2 : (readLoop (writeLoop [newBlock] 0 0 B).1
      (readLoop (writeLoop [newBlock] 0 0 B).1 0 0 B.length).2.1
      (readLoop (writeLoop [newBlock] 0 0 B).1 0 0 B.length).2.2 1).1 = [] := by
    rw [hrs'.1, hrs2, hread1, hc]
    simp
  refine ⟨trivial, trivial, trivial, trivial, rfl, ?_⟩
  rw [hr2]
  dsimp only []
  rw [hread2]

/-- Witness for claim C1 at the concrete byte sequence `[1, 2, 3]`. -/
theorem C1_ufs_round_trip_witness :
    ([1, 2, 3] : List Nat).length ≤ MAX_FILE_SIZE
    ∧ ((ufs_open ufs_initial "f" UFS_CREATE).2 = some 0
    ∧ (ufs_write (ufs_open ufs_initial "f" UFS_CREATE).1 0 [1, 2, 3]).2
        = some ([1, 2, 3] : List Nat).length
    ∧ (ufs_close (ufs_write (ufs_open ufs_initial "f" UFS_CREATE).1 0
        [1, 2, 3]).1 0).2 = some ()
    ∧ (ufs_open (ufs_close (ufs_write (ufs_open ufs_initial "f" UFS_CREATE).1
        0 [1, 2, 3]).1 0).1 "f" UFS_READ_ONLY).2 = some 0
    ∧ (ufs_read (ufs_open (ufs_close (ufs_write
        (ufs_open ufs_initial "f" UFS_CREATE).1 0 [1, 2, 3]).1 0).1 "f"
        UFS_READ_ONLY).1 0 ([1, 2, 3] : List Nat).length).2 = some [1, 2, 3]
    ∧ (ufs_read (ufs_read (ufs_open (ufs_close (ufs_write
        (ufs_open ufs_initial "f" UFS_CREATE).1 0 [1, 2, 3]).1 0).1 "f"
        UFS_READ_ONLY).1 0 ([1, 2, 3] : List Nat).length).1 0 1).2
        = some []) :=
  ⟨by decide, C1_ufs_round_trip [1, 2, 3] (by decide)⟩

theorem getD_none_beyond (l : List (Option Filedesc)) (i : Nat)
    (h : l.length ≤ i) : l.getD i none = none := by
  rw [List.getD_eq_getElem?_getD, List.getElem?_eq_none h]
  rfl

theorem ufs_open_body_spec (st : UFS) (f : UFile) (flags : Nat)
    (hinv : TableInv st) (hne : st.file_descriptors ≠ []) :
    ∃ fd, (ufs_open_body st f flags).2 = some fd
      ∧ st.file_descriptors.getD fd none = none
      ∧ (∀ j, j < fd → st.file_descriptors.getD j none ≠ none)
      ∧ (ufs_open_body st f flags).1.file_descriptors.getD fd none
          = some ⟨f.id, 0, flags, 0⟩ := by
  rcases hfi : st.file_descriptors.findIdx? (fun o => o.isNone) with _ | i
  · -- no NULL slot: the table is full, it grows, the slot is the old capacity
    have hallsome : ∀ j, j < st.file_descriptors.length →
        st.file_descriptors.getD j none ≠ none := by
      intro j hj hnone
      have hfalse : ∀ x ∈ st.file_descriptors, (fun o => o.isNone) x = false :=
        List.findIdx?_eq_none_iff.1 hfi
      have hx := hfalse (st.file_descriptors.getD j none)
        (by
          rw [List.getD_eq_getElem _ _ hj]
          exact List.getElem_mem hj)
      rw [hnone] at hx
      simp at hx
    have hlen1 : 1 ≤ st.file_descriptors.length := by
      rcases Nat.eq_zero_or_pos st.file_descriptors.length with h | h
      · exact absurd (List.length_eq_zero.1 h) hne
      · exact h
    have hcle := hinv.count_le
    have hlencount : st.file_descriptors.length = st.file_descriptor_count := by
      rcases Nat.lt_or_ge st.file_descriptor_count st.file_descriptors.length
        with h | h
      · exact absurd (hinv.high_none st.file_descriptor_count (le_refl _))
          (hallsome _ h)
      · omega
    have hsm : smallest_fd st
        = ({ st with file_descriptors := st.file_descriptors
              ++ List.replicate (st.file_descriptors.length
                * CAPACITY_MULTIPLIER - st.file_descriptors.length) none },
           some st.file_descriptor_count) := by
      unfold smallest_fd
      rw [if_neg hne, hfi]
      dsimp only []
      rw [if_pos hlencount]
      unfold adjust_container_capacity
      rw [if_pos (by omega)]
    have hrep : 0 < st.file_descriptors.length * CAPACITY_MULTIPLIER
        - st.file_descriptors.length := by
      rw [show CAPACITY_MULTIPLIER = 2 from rfl]
      omega
    have hfi2 : (st.file_descriptors
        ++ List.replicate (st.file_descriptors.length * CAPACITY_MULTIPLIER
          - st.file_descriptors.length) none).findIdx?
          (fun o : Option Filedesc => o.isNone)
        = some st.file_descriptors.length := by
      rw [List.findIdx?_append, hfi, List.findIdx?_replicate,
        if_pos ⟨hrep, by simp⟩]
      simp
    refine ⟨st.file_descriptor_count, ?_, ?_, ?_, ?_⟩
    · unfold ufs_open_body
      rw [hsm]
      dsimp only []
      rw [hfi2]
      simp [hlencount]
    · exact getD_none_beyond _ _ (by omega)
    · intro j hj
      exact hallsome j (by omega)
    · unfold ufs_open_body
      rw [hsm]
      dsimp only []
      rw [hfi2]
      simp only [Option.getD_some]
      rw [List.getD_eq_getElem?_getD, ← hlencount, List.getElem?_set_self (by
        rw [List.length_append, List.length_replicate]
        omega)]
      rfl
  · -- a NULL slot exists: the first one is used, the table is unchanged
    obtain ⟨hilen, hpi, hmin⟩ := List.findIdx?_eq_some_iff_getElem.1 hfi
    have hsm : smallest_fd st = (st, some i) := by
      unfold smallest_fd
      rw [if_neg hne, hfi]
    have hgetD : st.file_descriptors.getD i none = none := by
      rw [List.getD_eq_getElem?_getD, List.getElem?_eq_getElem hilen]
      simpa using hpi
    refine ⟨i, ?_, hgetD, ?_, ?_⟩
    · unfold ufs_open_body
      rw [hsm]
      dsimp only []
      rw [hfi]
      rfl
    · intro j hj hnone
      have := hmin j hj
      rw [List.getD_eq_getElem?_getD, List.getElem?_eq_getElem
        (by omega)] at hnone
      have : st.file_descriptors[j].isNone = true := by
        rw [Option.isNone_iff_eq_none]
        simpa using hnone
      simp_all
    · unfold ufs_open_body
      rw [hsm]
      dsimp only []
      rw [hfi]
      simp only [Option.getD_some]
      rw [List.getD_eq_getElem?_getD, List.getElem?_set_self hilen]
      rfl

theorem getD_set_none_self (l : List (Option Filedesc)) (k : Nat) :
    (l.set k none).getD k none = none := by
  rcases Nat.lt_or_ge k l.length with h | h
  · rw [List.getD_eq_getElem?_getD, List.getElem?_set_self h]
    rfl
  · exact getD_none_beyond _ _ (by rw [List.length_set]; omega)

theorem getD_set_none_mono (l : List (Option Filedesc)) (k i : Nat)
    (h : l.getD i none = none) : (l.set k none).getD i none = none := by
  by_cases hik : k = i
  · subst hik
    exact getD_set_none_self l k
  · rw [List.getD_eq_getElem?_getD, List.getElem?_set_ne hik,
      ← List.getD_eq_getElem?_getD]
    exact h

theorem getD_none_take (l : List (Option Filedesc)) (n k : Nat)
    (h : l.getD k none = none) : (l.take n).getD k none = none := by
  rw [List.getD_eq_getElem?_getD, List.getElem?_take]
  split
  · rw [← List.getD_eq_getElem?_getD]
    exact h
  · rfl

theorem getD_none_append_replicate (l : List (Option Filedesc)) (m k : Nat)
    (h : l.getD k none = none) :
    (l ++ List.replicate m none).getD k none = none := by
  rw [List.getD_eq_getElem?_getD, List.getElem?_append]
  split
  · rw [← List.getD_eq_getElem?_getD]
    exact h
  · rcases Nat.lt_or_ge (k - l.length) m with h2 | h2
    · rw [List.getElem?_eq_getElem (by rw [List.length_replicate]; omega)]
      simp [List.getElem_replicate]
    · rw [List.getElem?_eq_none (by rw [List.length_replicate]; omega)]
      rfl

theorem adjust_preserves_getD_none (st : UFS) (k : Nat)
    (h : st.file_descriptors.getD k none = none) :
    (adjust_container_capacity st).file_descriptors.getD k none = none := by
  unfold adjust_container_capacity
  dsimp only []
  split
  · exact getD_none_append_replicate _ _ _ h
  · split
    · exact getD_none_take _ _ _ h
    · exact h

theorem adjust_TableInv (st : UFS) (hinv : TableInv st) :
    TableInv (adjust_container_capacity st) := by
  have hcle := hinv.count_le
  unfold adjust_container_capacity
  dsimp only []
  split
  · constructor
    · dsimp only []
      rw [List.length_append, List.length_replicate]
      omega
    · intro i hi
      exact getD_none_append_replicate _ _ _ (hinv.high_none i hi)
  · split
    · rename_i hcond
      constructor
      · dsimp only []
        rw [List.length_take]
        rw [show CAPACITY_MULTIPLIER = 2 from rfl] at hcond
        have h1 := hcond.1
        have h2 := hcond.2
        rw [show CAPACITY_MULTIPLIER = 2 from rfl]
        omega
      · intro i hi
        exact getD_none_take _ _ _ (hinv.high_none i hi)
    · exact hinv

theorem shrink_count_le (fds : List (Option Filedesc)) (n : Nat) :
    shrink_count fds n ≤ n := by
  induction n with
  | zero => simp [shrink_count]
  | succ m ih =>
    unfold shrink_count
    split
    · omega
    · omega

theorem shrink_count_high (fds : List (Option Filedesc)) (n : Nat) :
    ∀ i, shrink_count fds n ≤ i → i < n → fds.getD i none = none := by
  induction n with
  | zero => omega
  | succ m ih =>
    intro i hi hin
    unfold shrink_count at hi
    by_cases hm : fds.getD m none = none
    · rw [if_pos hm] at hi
      rcases Nat.lt_or_ge i m with h | h
      · exact ih i hi h
      · have : i = m := by omega
        rw [this]
        exact hm
    · rw [if_neg hm] at hi
      omega

theorem tableInv_errno (st : UFS) (e : UfsErrorCode) (h : TableInv st) :
    TableInv { st with errno := e } :=
  ⟨h.1, h.2⟩

theorem tableInv_set_none (st : UFS) (k : Nat) (hinv : TableInv st) :
    TableInv { st with file_descriptors := st.file_descriptors.set k none } := by
  constructor
  · dsimp only []
    rw [List.length_set]
    exact hinv.count_le
  · intro i hi
    exact getD_set_none_mono _ _ _ (hinv.high_none i hi)

theorem ufs_close_slot_none (st : UFS) (k : Nat)
    (h : (ufs_close st k).2 = some ()) :
    (ufs_close st k).1.file_descriptors.getD k none = none := by
  unfold ufs_close at h ⊢
  by_cases herr : (k ≥ st.file_descriptor_count
      ∨ st.file_descriptors.getD k none = none)
  · rw [if_pos herr] at h
    simp at h
  · rw [if_neg herr] at h ⊢
    rcases hdesc : st.file_descriptors.getD k none with _ | desc
    · exact absurd (Or.inr hdesc) herr
    · dsimp only [] at h ⊢
      apply adjust_preserves_getD_none
      split
      · dsimp only []
        split
        · split
          · dsimp only []
            exact getD_set_none_self _ _
          · dsimp only []
            exact getD_set_none_self _ _
        · dsimp only []
          exact getD_set_none_self _ _
      · dsimp only []
        split
        · split
          · dsimp only []
            exact getD_set_none_self _ _
          · dsimp only []
            exact getD_set_none_self _ _
        · dsimp only []
          exact getD_set_none_self _ _

theorem tableInv_mk (fl : List UFile) (fds : List (Option Filedesc))
    (cnt nid : Nat) (e : UfsErrorCode) (h1 : cnt ≤ fds.length)
    (h2 : ∀ i, cnt ≤ i → fds.getD i none = none) :
    TableInv ⟨fl, fds, cnt, nid, e⟩ := ⟨h1, h2⟩

theorem ufs_close_TableInv (st : UFS) (k : Nat) (hinv : TableInv st)
    (h : (ufs_close st k).2 = some ()) :
    TableInv (ufs_close st k).1 := by
  unfold ufs_close at h ⊢
  by_cases herr : (k ≥ st.file_descriptor_count
      ∨ st.file_descriptors.getD k none = none)
  · rw [if_pos herr] at h
    simp at h
  · rw [if_neg herr] at h ⊢
    rcases hdesc : st.file_descriptors.getD k none with _ | desc
    · exact absurd (Or.inr hdesc) herr
    · dsimp only [] at h ⊢
      apply tableInv_errno
      apply adjust_TableInv
      split
      · split
        · split
          · dsimp only []
            refine tableInv_mk _ _ _ _ _ ?_ ?_
            · rw [List.length_set]
              have h1 := shrink_count_le (st.file_descriptors.set k none)
                st.file_descriptor_count
              have h2 := hinv.count_le
              omega
            · intro i hi
              rcases Nat.lt_or_ge i st.file_descriptor_count with hlt | hge
              · exact shrink_count_high _ _ i hi hlt
              · exact getD_set_none_mono _ _ _ (hinv.high_none i hge)
          · dsimp only []
            refine tableInv_mk _ _ _ _ _ ?_ ?_
            · rw [List.length_set]
              have h1 := shrink_count_le (st.file_descriptors.set k none)
                st.file_descriptor_count
              have h2 := hinv.count_le
              omega
            · intro i hi
              rcases Nat.lt_or_ge i st.file_descriptor_count with hlt | hge
              · exact shrink_count_high _ _ i hi hlt
              · exact getD_set_none_mono _ _ _ (hinv.high_none i hge)
        · dsimp only []
          refine tableInv_mk _ _ _ _ _ ?_ ?_
          · rw [List.length_set]
            have h1 := shrink_count_le (st.file_descriptors.set k none)
              st.file_descriptor_count
            have h2 := hinv.count_le
            omega
          · intro i hi
            rcases Nat.lt_or_ge i st.file_descriptor_count with hlt | hge
            · exact shrink_count_high _ _ i hi hlt
            · exact getD_set_none_mono _ _ _ (hinv.high_none i hge)
      · split
        · split
          · dsimp only []
            refine tableInv_mk _ _ _ _ _ ?_ ?_
            · rw [List.length_set]
              exact hinv.count_le
            · intro i hi
              exact getD_set_none_mono _ _ _ (hinv.high_none i hi)
          · dsimp only []
            refine tableInv_mk _ _ _ _ _ ?_ ?_
            · rw [List.length_set]
              exact hinv.count_le
            · intro i hi
              exact getD_set_none_mono _ _ _ (hinv.high_none i hi)
        · dsimp only []
          refine tableInv_mk _ _ _ _ _ ?_ ?_
          · rw [List.length_set]
            exact hinv.count_le
          · intro i hi
            exact getD_set_none_mono _ _ _ (hinv.high_none i hi)

theorem getD_replicate_none (n i : Nat) :
    (List.replicate n (none : Option Filedesc)).getD i none = none := by
  rcases Nat.lt_or_ge i n with h | h
  · rw [List.getD_eq_getElem?_getD,
      List.getElem?_eq_getElem (by simpa using h)]
    simp
  · exact getD_none_beyond _ _ (by simpa using h)

theorem tableInv_mkfile (st : UFS) (nm : String) (h : TableInv st) :
    TableInv (mkfile st nm).1 := ⟨h.1, h.2⟩

theorem tableInv_fd_setup (st : UFS) : TableInv (fd_setup st) := by
  constructor
  · dsimp only [fd_setup]
    simp
  · intro i hi
    exact getD_replicate_none _ _

theorem ufs_open_smallest (st : UFS) (nm : String) (flags : Nat) (fd : Nat)
    (hinv : TableInv st)
    (hopen : (ufs_open st nm flags).2 = some fd) :
    st.file_descriptors.getD fd none = none
    ∧ ∀ j, j < fd → st.file_descriptors.getD j none ≠ none := by
  unfold ufs_open at hopen
  by_cases hfds : st.file_descriptors = []
  · rw [if_pos hfds] at hopen
    dsimp only [] at hopen
    have hne2 : (fd_setup st).file_descriptors ≠ [] := by
      dsimp only [fd_setup]
      simp [DESCRIPTOR_POOL_START_SIZE]
    have hzero : fd = 0 → (st.file_descriptors.getD fd none = none
        ∧ ∀ j, j < fd → st.file_descriptors.getD j none ≠ none) := by
      intro h0
      subst h0
      refine ⟨by simp [hfds], ?_⟩
      intro j hj
      omega
    rcases hfind : find (fd_setup st) nm with _ | f
    · rw [hfind] at hopen
      dsimp only [] at hopen
      by_cases hcr : flags &&& UFS_CREATE = 0
      · rw [if_pos hcr] at hopen
        simp at hopen
      · rw [if_neg hcr] at hopen
        obtain ⟨fd0, hb2, hfree, hmin, _⟩ :=
          ufs_open_body_spec (mkfile (fd_setup st) nm).1
            (mkfile (fd_setup st) nm).2 flags
            (tableInv_mkfile _ _ (tableInv_fd_setup st)) hne2
        rw [hb2] at hopen
        simp at hopen
        apply hzero
        rcases Nat.eq_zero_or_pos fd0 with h0 | h0
        · omega
        · exact absurd (getD_replicate_none _ _) (hmin 0 h0)
    · rw [hfind] at hopen
      dsimp only [] at hopen
      obtain ⟨fd0, hb2, hfree, hmin, _⟩ :=
        ufs_open_body_spec (fd_setup st) f flags (tableInv_fd_setup st) hne2
      rw [hb2] at hopen
      simp at hopen
      apply hzero
      rcases Nat.eq_zero_or_pos fd0 with h0 | h0
      · omega
      · exact absurd (getD_replicate_none _ _) (hmin 0 h0)
  · rw [if_neg hfds] at hopen
    dsimp only [] at hopen
    rcases hfind : find st nm with _ | f
    · rw [hfind] at hopen
      dsimp only [] at hopen
      by_cases hcr : flags &&& UFS_CREATE = 0
      · rw [if_pos hcr] at hopen
        simp at hopen
      · rw [if_neg hcr] at hopen
        obtain ⟨fd0, hb2, hfree, hmin, _⟩ :=
          ufs_open_body_spec (mkfile st nm).1 (mkfile st nm).2 flags
            (tableInv_mkfile _ _ hinv) hfds
        rw [hb2] at hopen
        simp at hopen
        subst hopen
        exact ⟨hfree, hmin⟩
    · rw [hfind] at hopen
      dsimp only [] at hopen
      obtain ⟨fd0, hb2, hfree, hmin, _⟩ :=
        ufs_open_body_spec st f flags hinv hfds
      rw [hb2] at hopen
      simp at hopen
      subst hopen
      exact ⟨hfree, hmin⟩

/-- Claim C5: every successful `ufs_open` installs the new descriptor at
the smallest index of the descriptor table that is not occupied (slots
past the current capacity count as free, covering the growth case); and
after a successful `ufs_close` of descriptor `k`, the next successful
`ufs_open` returns an index `≤ k`. -/
theorem C5_ufs_smallest_free_descriptor :
    (∀ st nm flags fd, TableInv st → (ufs_open st nm flags).2 = some fd →
      st.file_descriptors.getD fd none = none
      ∧ ∀ j, j < fd → st.file_descriptors.getD j none ≠ none)
    ∧ (∀ st k nm flags fd, TableInv st → (ufs_close st k).2 = some () →
        (ufs_open (ufs_close st k).1 nm flags).2 = some fd → fd ≤ k) := by
  constructor
  · intro st nm flags fd hinv hopen
    exact ufs_open_smallest st nm flags fd hinv hopen
  · intro st k nm flags fd hinv hclose hopen
    have hinv2 := ufs_close_TableInv st k hinv hclose
    have hk := ufs_close_slot_none st k hclose
    obtain ⟨hfree, hmin⟩ := ufs_open_smallest _ nm flags fd hinv2 hopen
    by_contra hgt
    push_neg at hgt
    exact hmin k hgt hk

/-- Witness for claim C5: a fresh open lands on slot 0, which is free in
the empty table; and after opening two files and closing descriptor 0,
the next open returns 0 ≤ 0. -/
theorem C5_ufs_smallest_free_descriptor_witness :
    (TableInv ufs_initial
      ∧ (ufs_open ufs_initial "a" UFS_CREATE).2 = some 0
      ∧ (ufs_initial.file_descriptors.getD 0 none = none
        ∧ ∀ j, j < 0 → ufs_initial.file_descriptors.getD j none ≠ none))
    ∧ (TableInv (ufs_open (ufs_open ufs_initial "a" UFS_CREATE).1 "b"
          UFS_CREATE).1
      ∧ (ufs_close (ufs_open (ufs_open ufs_initial "a" UFS_CREATE).1 "b"
          UFS_CREATE).1 0).2 = some ()
      ∧ (ufs_open (ufs_close (ufs_open (ufs_open ufs_initial "a"
          UFS_CREATE).1 "b" UFS_CREATE).1 0).1 "c" UFS_CREATE).2 = some 0
      ∧ 0 ≤ 0) := by
  have hinv0 : TableInv ufs_initial := by
    constructor
    · simp [ufs_initial]
    · intro i hi
      rfl
  have hinv2 : TableInv (ufs_open (ufs_open ufs_initial "a" UFS_CREATE).1 "b"
      UFS_CREATE).1 := by
    have hcnt : (ufs_open (ufs_open ufs_initial "a" UFS_CREATE).1 "b"
        UFS_CREATE).1.file_descriptor_count = 2 := rfl
    have hlen : (ufs_open (ufs_open ufs_initial "a" UFS_CREATE).1 "b"
        UFS_CREATE).1.file_descriptors.length = 10 := rfl
    constructor
    · omega
    · intro i hi
      rw [hcnt] at hi
      rcases Nat.lt_or_ge i 10 with h | h
      · interval_cases i <;> rfl
      · exact getD_none_beyond _ _ (by omega)
  refine ⟨⟨hinv0, by rfl,
    C5_ufs_smallest_free_descriptor.1 ufs_initial "a" UFS_CREATE 0 hinv0
      (by rfl)⟩,
    hinv2, by rfl, by rfl,
    C5_ufs_smallest_free_descriptor.2 _ 0 "c" UFS_CREATE 0 hinv2 (by rfl)
      (by rfl)⟩

theorem ufs_open_desc (st : UFS) (nm : String) (flags : Nat) (fd : Nat)
    (hinv : TableInv st)
    (hopen : (ufs_open st nm flags).2 = some fd) :
    ∃ d, (ufs_open st nm flags).1.file_descriptors.getD fd none = some d
      ∧ d.curr_data_segment = 0 ∧ d.byte_pos = 0 := by
  unfold ufs_open at hopen ⊢
  by_cases hfds : st.file_descriptors = []
  · rw [if_pos hfds] at hopen ⊢
    dsimp only [] at hopen ⊢
    have hne2 : (fd_setup st).file_descriptors ≠ [] := by
      dsimp only [fd_setup]
      simp [DESCRIPTOR_POOL_START_SIZE]
    rcases hfind : find (fd_setup st) nm with _ | f
    · rw [hfind] at hopen
      dsimp only [] at hopen ⊢
      by_cases hcr : flags &&& UFS_CREATE = 0
      · rw [if_pos hcr] at hopen
        simp at hopen
      · rw [if_neg hcr] at hopen ⊢
        obtain ⟨fd0, hb2, _, _, hpost⟩ :=
          ufs_open_body_spec (mkfile (fd_setup st) nm).1
            (mkfile (fd_setup st) nm).2 flags
            (tableInv_mkfile _ _ (tableInv_fd_setup st)) hne2
        rw [hb2] at hopen
        simp at hopen
        subst hopen
        exact ⟨_, hpost, rfl, rfl⟩
    · rw [hfind] at hopen
      dsimp only [] at hopen ⊢
      obtain ⟨fd0, hb2, _, _, hpost⟩ :=
        ufs_open_body_spec (fd_setup st) f flags (tableInv_fd_setup st) hne2
      rw [hb2] at hopen
      simp at hopen
      subst hopen
      exact ⟨_, hpost, rfl, rfl⟩
  · rw [if_neg hfds] at hopen ⊢
    dsimp only [] at hopen ⊢
    rcases hfind : find st nm with _ | f
    · rw [hfind] at hopen
      dsimp only [] at hopen ⊢
      by_cases hcr : flags &&& UFS_CREATE = 0
      · rw [if_pos hcr] at hopen
        simp at hopen
      · rw [if_neg hcr] at hopen ⊢
        obtain ⟨fd0, hb2, _, _, hpost⟩ :=
          ufs_open_body_spec (mkfile st nm).1 (mkfile st nm).2 flags
            (tableInv_mkfile _ _ hinv) hfds
        rw [hb2] at hopen
        simp at hopen
        subst hopen
        exact ⟨_, hpost, rfl, rfl⟩
    · rw [hfind] at hopen
      dsimp only [] at hopen ⊢
      obtain ⟨fd0, hb2, _, _, hpost⟩ :=
        ufs_open_body_spec st f flags hinv hfds
      rw [hb2] at hopen
      simp at hopen
      subst hopen
      exact ⟨_, hpost, rfl, rfl⟩

/-- Claim C10 (implicit): every successful `ufs_open` positions the new
descriptor at block index 0, byte offset 0 — there is no append mode; and
a first write through such a descriptor overwrites the file from its very
first byte: the new payload is the buffer followed by whatever part of the
old payload lies past it. -/
theorem C10_ufs_open_positions_at_start :
    (∀ st nm flags fd, TableInv st → (ufs_open st nm flags).2 = some fd →
      ∃ d, (ufs_open st nm flags).1.file_descriptors.getD fd none = some d
        ∧ d.curr_data_segment = 0 ∧ d.byte_pos = 0)
    ∧ (∀ st fd d F B, st.file_descriptors.getD fd none = some d →
        fd < st.file_descriptor_count →
        d.curr_data_segment = 0 → d.byte_pos = 0 →
        st.file_list.find? (fun f => f.id == d.file_id) = some F →
        WfBlocks F.block_list →
        is_writable d = true →
        ¬ ((F.block_list.getD 0 newBlock).occupied + 0 * BLOCK_SIZE
            + B.length > MAX_FILE_SIZE) →
        (ufs_write st fd B).2 = some B.length
        ∧ ∃ G, G ∈ (ufs_write st fd B).1.file_list ∧ G.id = F.id
          ∧ content G.block_list
              = B ++ (content F.block_list).drop B.length) := by
  constructor
  · intro st nm flags fd hinv hopen
    exact ufs_open_desc st nm flags fd hinv hopen
  · intro st fd d F B hgetD hfd hseg0 hpos0 hfind hwf hw hguard
    have hloc : locate_descriptor st fd = some d := by
      unfold locate_descriptor
      rw [if_pos hfd]
      exact hgetD
    have hguard2 : ¬ ((F.block_list.getD d.curr_data_segment
        newBlock).occupied + d.curr_data_segment * BLOCK_SIZE + B.length
        > MAX_FILE_SIZE) := by
      rw [hseg0]
      exact hguard
    have hw2 := ufs_write_ok st fd B d F hloc hw hfind hguard2
    rw [hw2]
    have hlen1 : 0 < F.block_list.length := by
      rcases Nat.eq_zero_or_pos F.block_list.length with h | h
      · exact absurd (List.length_eq_zero.1 h) hwf.ne
      · exact h
    obtain ⟨hws1, _, _, _, _⟩ := writeLoop_spec F.block_list
      d.curr_data_segment d.byte_pos B
      (by exact hwf)
      (by rw [hseg0]; exact hlen1)
      (by rw [hpos0]; exact Nat.zero_le _)
    refine ⟨rfl, ⟨F.id, (writeLoop F.block_list d.curr_data_segment
      d.byte_pos B).1, F.refs, F.name, F.is_removed⟩, ?_, rfl, ?_⟩
    · dsimp only []
      refine List.mem_map.2 ⟨F, List.mem_of_find?_eq_some hfind, ?_⟩
      rw [if_pos rfl]
    · dsimp only []
      rw [hws1, hseg0, hpos0]
      simp [splice]

/-- Witness for claim C10: opening a fresh file from the initial state
gives a descriptor with the cursor at block 0, offset 0, and writing
`[7]` through it puts the byte at the very start of the payload. -/
theorem C10_ufs_open_positions_at_start_witness :
    (TableInv ufs_initial
      ∧ (ufs_open ufs_initial "f" UFS_CREATE).2 = some 0
      ∧ ∃ d, (ufs_open ufs_initial "f" UFS_CREATE).1.file_descriptors.getD 0
          none = some d ∧ d.curr_data_segment = 0 ∧ d.byte_pos = 0)
    ∧ ((ufs_open ufs_initial "f" UFS_CREATE).1.file_descriptors.getD 0 none
        = some ⟨0, 0, UFS_CREATE, 0⟩
      ∧ 0 < (ufs_open ufs_initial "f" UFS_CREATE).1.file_descriptor_count
      ∧ (ufs_open ufs_initial "f" UFS_CREATE).1.file_list.find?
          (fun f => f.id == (0 : Nat)) = some ⟨0, [newBlock], 1, "f", false⟩
      ∧ WfBlocks [newBlock]
      ∧ is_writable ⟨0, 0, UFS_CREATE, 0⟩ = true
      ∧ ¬ ((([newBlock].getD 0 newBlock).occupied + 0 * BLOCK_SIZE
          + ([7] : List Nat).length) > MAX_FILE_SIZE)
      ∧ ((ufs_write (ufs_open ufs_initial "f" UFS_CREATE).1 0 [7]).2
          = some ([7] : List Nat).length
        ∧ ∃ G, G ∈ (ufs_write (ufs_open ufs_initial "f" UFS_CREATE).1 0
            [7]).1.file_list ∧ G.id = 0
          ∧ content G.block_list
              = [7] ++ (content [newBlock]).drop ([7] : List Nat).length)) := by
  have hinv0 : TableInv ufs_initial := by
    constructor
    · simp [ufs_initial]
    · intro i hi
      rfl
  refine ⟨⟨hinv0, by rfl,
    C10_ufs_open_positions_at_start.1 ufs_initial "f" UFS_CREATE 0 hinv0
      (by rfl)⟩,
    by rfl, by decide, by rfl, wfBlocks_newBlock, by rfl, by decide, ?_⟩
  exact C10_ufs_open_positions_at_start.2
    (ufs_open ufs_initial "f" UFS_CREATE).1 0 ⟨0, 0, UFS_CREATE, 0⟩
    ⟨0, [newBlock], 1, "f", false⟩ [7] (by rfl) (by decide) rfl rfl (by rfl)
    wfBlocks_newBlock (by rfl) (by decide)

theorem removeFileById_ne (l : List UFile) (fid : Nat)
    (hnd : (l.map UFile.id).Nodup) :
    ∀ G ∈ removeFileById l fid, G.id ≠ fid := by
  induction l with
  | nil =>
    intro G hG
    simp [removeFileById] at hG
  | cons f t ih =>
    intro G hG
    rw [List.map_cons, List.nodup_cons] at hnd
    unfold removeFileById at hG
    by_cases hf : f.id = fid
    · rw [if_pos hf] at hG
      intro hGid
      exact hnd.1 (hf ▸ hGid ▸ List.mem_map_of_mem UFile.id hG)
    · rw [if_neg hf] at hG
      rcases List.mem_cons.1 hG with h | h
      · subst h
        exact hf
      · exact ih hnd.2 G h

theorem find?_map_id (l : List UFile) (x : Nat) (u : UFile → UFile)
    (hu : ∀ g, (u g).id = g.id) (F : UFile)
    (h : l.find? (fun f => f.id == x) = some F) :
    (l.map u).find? (fun f => f.id == x) = some (u F) := by
  induction l with
  | nil => simp at h
  | cons g t ih =>
    rw [List.map_cons]
    by_cases hg : g.id = x
    · rw [List.find?_cons_of_pos _ (by simp [hg])] at h
      rw [List.find?_cons_of_pos _ (by simp [hu, hg])]
      simp at h
      rw [h]
    · rw [List.find?_cons_of_neg _ (by simp [hg])] at h
      rw [List.find?_cons_of_neg _ (by simp [hu, hg])]
      exact ih h

theorem find_spec (st : UFS) (nm : String) (F : UFile)
    (h : find st nm = some F) :
    F ∈ st.file_list ∧ F.is_removed = false ∧ F.name = nm := by
  have hmem := List.mem_of_find?_eq_some h
  have hp := List.find?_some h
  simp at hp
  exact ⟨hmem, hp.1, hp.2⟩

theorem ufs_delete_mark (st : UFS) (nm : String) (F : UFile)
    (hfind : find st nm = some F) (hrefs : ¬ F.refs = 0) :
    ufs_delete st nm
      = (⟨st.file_list.map (fun g => if g.id = F.id then
            ⟨g.id, g.block_list, g.refs, g.name, true⟩ else g),
          st.file_descriptors, st.file_descriptor_count, st.next_id,
          UFS_ERR_NO_ERR⟩, some ()) := by
  unfold ufs_delete
  rw [hfind]
  dsimp only []
  rw [if_neg hrefs]

theorem ufs_delete_destroy (st : UFS) (nm : String) (F : UFile)
    (hfind : find st nm = some F) (hrefs : F.refs = 0) :
    ufs_delete st nm
      = (⟨removeFileById st.file_list F.id, st.file_descriptors,
          st.file_descriptor_count, st.next_id, UFS_ERR_NO_ERR⟩, some ()) := by
  unfold ufs_delete
  rw [hfind]
  dsimp only []
  rw [if_pos hrefs]

theorem ufs_delete_TableInv (st : UFS) (nm : String) (hinv : TableInv st) :
    TableInv (ufs_delete st nm).1 := by
  unfold ufs_delete
  rcases hfind : find st nm with _ | F
  · exact ⟨hinv.1, hinv.2⟩
  · dsimp only []
    split
    · exact ⟨hinv.1, hinv.2⟩
    · exact ⟨hinv.1, hinv.2⟩

theorem adjust_file_list (st : UFS) :
    (adjust_container_capacity st).file_list = st.file_list := by
  unfold adjust_container_capacity
  dsimp only []
  split
  · rfl
  · split
    · rfl
    · rfl

theorem ufs_open_desc_file (st : UFS) (nm : String) (flags : Nat) (fd : Nat)
    (hinv : TableInv st)
    (hopen : (ufs_open st nm flags).2 = some fd) :
    ∃ d, (ufs_open st nm flags).1.file_descriptors.getD fd none = some d
      ∧ ((∃ G, find st nm = some G ∧ d.file_id = G.id)
        ∨ (find st nm = none ∧ d.file_id = st.next_id)) := by
  unfold ufs_open at hopen ⊢
  by_cases hfds : st.file_descriptors = []
  · rw [if_pos hfds] at hopen ⊢
    dsimp only [] at hopen ⊢
    have hne2 : (fd_setup st).file_descriptors ≠ [] := by
      dsimp only [fd_setup]
      simp [DESCRIPTOR_POOL_START_SIZE]
    rcases hfind : find (fd_setup st) nm with _ | f
    · rw [hfind] at hopen
      dsimp only [] at hopen ⊢
      by_cases hcr : flags &&& UFS_CREATE = 0
      · rw [if_pos hcr] at hopen
        simp at hopen
      · rw [if_neg hcr] at hopen ⊢
        obtain ⟨fd0, hb2, _, _, hpost⟩ :=
          ufs_open_body_spec (mkfile (fd_setup st) nm).1
            (mkfile (fd_setup st) nm).2 flags
            (tableInv_mkfile _ _ (tableInv_fd_setup st)) hne2
        rw [hb2] at hopen
        simp at hopen
        subst hopen
        exact ⟨_, hpost, Or.inr ⟨hfind, rfl⟩⟩
    · rw [hfind] at hopen
      dsimp only [] at hopen ⊢
      obtain ⟨fd0, hb2, _, _, hpost⟩ :=
        ufs_open_body_spec (fd_setup st) f flags (tableInv_fd_setup st) hne2
      rw [hb2] at hopen
      simp at hopen
      subst hopen
      exact ⟨_, hpost, Or.inl ⟨f, hfind, rfl⟩⟩
  · rw [if_neg hfds] at hopen ⊢
    dsimp only [] at hopen ⊢
    rcases hfind : find st nm with _ | f
    · rw [hfind] at hopen
      dsimp only [] at hopen ⊢
      by_cases hcr : flags &&& UFS_CREATE = 0
      · rw [if_pos hcr] at hopen
        simp at hopen
      · rw [if_neg hcr] at hopen ⊢
        obtain ⟨fd0, hb2, _, _, hpost⟩ :=
          ufs_open_body_spec (mkfile st nm).1 (mkfile st nm).2 flags
            (tableInv_mkfile _ _ hinv) hfds
        rw [hb2] at hopen
        simp at hopen
        subst hopen
        exact ⟨_, hpost, Or.inr ⟨rfl, rfl⟩⟩
    · rw [hfind] at hopen
      dsimp only [] at hopen ⊢
      obtain ⟨fd0, hb2, _, _, hpost⟩ :=
        ufs_open_body_spec st f flags hinv hfds
      rw [hb2] at hopen
      simp at hopen
      subst hopen
      exact ⟨_, hpost, Or.inl ⟨f, rfl, rfl⟩⟩

theorem ufs_close_destroys (st : UFS) (fd : Nat) (d : Filedesc) (F : UFile)
    (hfd : fd < st.file_descriptor_count)
    (hgetD : st.file_descriptors.getD fd none = some d)
    (hfindF : st.file_list.find? (fun f => f.id == d.file_id) = some F)
    (hrefs : F.refs = 1) (hrem : F.is_removed = true) :
    (ufs_close st fd).2 = some ()
    ∧ (ufs_close st fd).1.file_list
        = removeFileById (st.file_list.map (fun g =>
            if g.id = d.file_id then
              ⟨g.id, g.block_list, g.refs - 1, g.name, g.is_removed⟩
            else g)) F.id := by
  have hFid : F.id = d.file_id := by
    have h := List.find?_some hfindF
    simpa using h
  have hu : ∀ g : UFile, ((fun g : UFile =>
      if g.id = d.file_id then
        (⟨g.id, g.block_list, g.refs - 1, g.name, g.is_removed⟩ : UFile)
      else g) g).id = g.id := by
    intro g
    dsimp only []
    split
    · rfl
    · rfl
  unfold ufs_close
  rw [if_neg (by
    intro h
    rcases h with h | h
    · omega
    · rw [hgetD] at h
      exact Option.noConfusion h)]
  rw [hgetD]
  dsimp only []
  rw [find?_map_id _ _ _ hu F hfindF]
  dsimp only []
  rw [if_pos hFid]
  rw [if_pos (show (⟨F.id, F.block_list, F.refs - 1, F.name,
      F.is_removed⟩ : UFile).refs = 0
      ∧ (⟨F.id, F.block_list, F.refs - 1, F.name,
        F.is_removed⟩ : UFile).is_removed by
    refine ⟨?_, ?_⟩
    · show F.refs - 1 = 0
      rw [hrefs]
      norm_num
    · show F.is_removed = true
      exact hrem)]
  dsimp only []
  refine ⟨rfl, ?_⟩
  rw [adjust_file_list]
  split
  · rfl
  · rfl

/-- Claim C4: deferred deletion.  (a) Deleting a file that still has open
descriptors (`refs ≠ 0`) succeeds, leaves the descriptor table untouched,
keeps the file node with its block chain and reference count in the list
but marks it removed, keeps every by-identity lookup returning the same
block chain (so open descriptors keep operating on the old content),
makes the name unfindable by `ufs_open`'s lookup, and any subsequent
successful open of that name installs a descriptor on a different file
identity.  (b) Deleting a file with no open descriptors destroys it
immediately: no file with its identity remains.  (c) Closing the last
descriptor (`refs = 1`) of a removed file destroys the file node. -/
theorem C4_ufs_deferred_deletion :
    (∀ st nm F, TableInv st →
      (st.file_list.map UFile.id).Nodup →
      (∀ g ∈ st.file_list, g.id < st.next_id) →
      find st nm = some F → F.refs ≠ 0 →
      (ufs_delete st nm).2 = some ()
      ∧ (ufs_delete st nm).1.file_descriptors = st.file_descriptors
      ∧ (∃ F', F' ∈ (ufs_delete st nm).1.file_list ∧ F'.id = F.id
          ∧ F'.is_removed = true ∧ F'.block_list = F.block_list
          ∧ F'.refs = F.refs)
      ∧ (∀ x H, st.file_list.find? (fun f => f.id == x) = some H →
          ∃ H', (ufs_delete st nm).1.file_list.find?
              (fun f => f.id == x) = some H'
            ∧ H'.id = H.id ∧ H'.block_list = H.block_list)
      ∧ (∀ G, find (ufs_delete st nm).1 nm = some G → G.id ≠ F.id)
      ∧ (∀ flags fd d,
          (ufs_open (ufs_delete st nm).1 nm flags).2 = some fd →
          (ufs_open (ufs_delete st nm).1 nm
              flags).1.file_descriptors.getD fd none = some d →
          d.file_id ≠ F.id))
    ∧ (∀ st nm F, (st.file_list.map UFile.id).Nodup →
        find st nm = some F → F.refs = 0 →
        (ufs_delete st nm).2 = some ()
        ∧ ∀ G ∈ (ufs_delete st nm).1.file_list, G.id ≠ F.id)
    ∧ (∀ st fd d F, (st.file_list.map UFile.id).Nodup →
        fd < st.file_descriptor_count →
        st.file_descriptors.getD fd none = some d →
        st.file_list.find? (fun f => f.id == d.file_id) = some F →
        F.refs = 1 → F.is_removed = true →
        (ufs_close st fd).2 = some ()
        ∧ ∀ G ∈ (ufs_close st fd).1.file_list, G.id ≠ F.id) := by
  refine ⟨?_, ?_, ?_⟩
  · intro st nm F hinv hnd hbnd hfind hrefs
    have hmark := ufs_delete_mark st nm F hfind hrefs
    have hu : ∀ g : UFile, ((fun g : UFile =>
        if g.id = F.id then
          (⟨g.id, g.block_list, g.refs, g.name, true⟩ : UFile)
        else g) g).id = g.id := by
      intro g
      dsimp only []
      split
      · rfl
      · rfl
    have hFmem := (find_spec st nm F hfind).1
    have hfind2 : ∀ G, find (ufs_delete st nm).1 nm = some G
        → G.id ≠ F.id := by
      intro G hG hGid
      rw [hmark] at hG
      unfold find at hG
      dsimp only [] at hG
      have hmem := List.mem_of_find?_eq_some hG
      have hp := List.find?_some hG
      simp at hp
      rcases List.mem_map.1 hmem with ⟨g, hg, hvg⟩
      by_cases hgid : g.id = F.id
      · rw [if_pos hgid] at hvg
        rw [← hvg] at hp
        simp at hp
      · rw [if_neg hgid] at hvg
        rw [← hvg] at hGid
        exact hgid hGid
    refine ⟨?_, ?_, ?_, ?_, hfind2, ?_⟩
    · rw [hmark]
    · rw [hmark]
    · refine ⟨⟨F.id, F.block_list, F.refs, F.name, true⟩, ?_, rfl, rfl,
        rfl, rfl⟩
      rw [hmark]
      dsimp only []
      exact List.mem_map.2 ⟨F, hFmem, by rw [if_pos rfl]⟩
    · intro x H hH
      refine ⟨_, ?_, hu H, ?_⟩
      · rw [hmark]
        dsimp only []
        exact find?_map_id _ _ _ hu H hH
      · dsimp only []
        split
        · rfl
        · rfl
    · intro flags fd d hopen hget
      have hinv2 := ufs_delete_TableInv st nm hinv
      obtain ⟨d2, hd2, hcase⟩ :=
        ufs_open_desc_file (ufs_delete st nm).1 nm flags fd hinv2 hopen
      rw [hget] at hd2
      have hd : d = d2 := Option.some.inj hd2
      subst hd
      rcases hcase with ⟨G, hG, hid⟩ | ⟨_, hid⟩
      · rw [hid]
        exact hfind2 G hG
      · rw [hid]
        have hnext : (ufs_delete st nm).1.next_id = st.next_id := by
          rw [hmark]
        rw [hnext]
        have := hbnd F hFmem
        omega
  · intro st nm F hnd hfind hrefs
    have hdes := ufs_delete_destroy st nm F hfind hrefs
    rw [hdes]
    exact ⟨rfl, removeFileById_ne st.file_list F.id hnd⟩
  · intro st fd d F hnd hfd hgetD hfindF hrefs hrem
    obtain ⟨h2, hfl⟩ := ufs_close_destroys st fd d F hfd hgetD hfindF
      hrefs hrem
    refine ⟨h2, ?_⟩
    intro G hG
    rw [hfl] at hG
    refine removeFileById_ne _ F.id ?_ G hG
    have hmapeq : (st.file_list.map (fun g =>
        if g.id = d.file_id then
          (⟨g.id, g.block_list, g.refs - 1, g.name, g.is_removed⟩ : UFile)
        else g)).map UFile.id = st.file_list.map UFile.id := by
      rw [List.map_map]
      refine List.map_congr_left ?_
      intro g hg
      dsimp only [Function.comp]
      split
      · rfl
      · rfl
    rw [hmapeq]
    exact hnd

/-- Witness for claim C4: on a concrete run, deleting an open file
succeeds, deleting it after its descriptor is closed removes its identity
from the list, and closing the descriptor of the already-deleted file
succeeds (destroying the node). -/
theorem C4_ufs_deferred_deletion_witness :
    (ufs_delete (ufs_open ufs_initial "f" UFS_CREATE).1 "f").2 = some ()
    ∧ (∀ G ∈ (ufs_delete (ufs_close (ufs_open ufs_initial "f"
          UFS_CREATE).1 0).1 "f").1.file_list, G.id ≠ 0)
    ∧ (ufs_close (ufs_delete (ufs_open ufs_initial "f" UFS_CREATE).1
        "f").1 0).2 = some () := by
  have hinv1 : TableInv (ufs_open ufs_initial "f" UFS_CREATE).1 := by
    have hcnt : (ufs_open ufs_initial "f"
        UFS_CREATE).1.file_descriptor_count = 1 := rfl
    have hlen : (ufs_open ufs_initial "f"
        UFS_CREATE).1.file_descriptors.length = 10 := rfl
    constructor
    · omega
    · intro i hi
      rw [hcnt] at hi
      rcases Nat.lt_or_ge i 10 with h | h
      · interval_cases i <;> rfl
      · exact getD_none_beyond _ _ (by omega)
  refine ⟨?_, ?_, ?_⟩
  · exact (C4_ufs_deferred_deletion.1 _ "f" ⟨0, [newBlock], 1, "f", false⟩
      hinv1 (List.nodup_singleton 0)
      (by
        intro g hg
        rw [show (ufs_open ufs_initial "f" UFS_CREATE).1.file_list
          = [⟨0, [newBlock], 1, "f", false⟩] from rfl] at hg
        rcases List.mem_singleton.1 hg with rfl
        decide)
      rfl (by decide)).1
  · exact (C4_ufs_deferred_deletion.2.1
      (ufs_close (ufs_open ufs_initial "f" UFS_CREATE).1 0).1 "f"
      ⟨0, [newBlock], 0, "f", false⟩ (List.nodup_singleton 0) rfl rfl).2
  · exact (C4_ufs_deferred_deletion.2.2
      (ufs_delete (ufs_open ufs_initial "f" UFS_CREATE).1 "f").1 0
      ⟨0, 0, UFS_CREATE, 0⟩
      ⟨0, [newBlock], 1, "f", true⟩ (List.nodup_singleton 0) (by decide)
      rfl rfl rfl rfl).1

/-- Counterexample to claim C3: the open flags are not honoured as a
bitset.  A descriptor opened with `UFS_CREATE ||| UFS_READ_ONLY` has the
`READ_ONLY` access bit set, yet `ufs_read` through it is denied with
`NO_PERMISSION`, because `is_readable` switches on the exact flag value
and `UFS_CREATE | UFS_READ_ONLY` is none of its cases. -/
theorem C3_ufs_access_flags_counterexample :
    (UFS_CREATE ||| UFS_READ_ONLY) &&& UFS_READ_ONLY ≠ 0
    ∧ (ufs_open ufs_initial "p" (UFS_CREATE ||| UFS_READ_ONLY)).2 = some 0
    ∧ locate_descriptor (ufs_open ufs_initial "p"
        (UFS_CREATE ||| UFS_READ_ONLY)).1 0
      = some ⟨0, 0, UFS_CREATE ||| UFS_READ_ONLY, 0⟩
    ∧ (ufs_read (ufs_open ufs_initial "p"
        (UFS_CREATE ||| UFS_READ_ONLY)).1 0 1).2 = none
    ∧ (ufs_read (ufs_open ufs_initial "p"
        (UFS_CREATE ||| UFS_READ_ONLY)).1 0 1).1.errno
      = UFS_ERR_NO_PERMISSION :=
  ⟨by decide, rfl, rfl, rfl, rfl⟩

/-- Claim C3 (amended): `is_readable` and `is_writable` switch on the
exact flag value rather than on individual access bits.  A descriptor may
read iff its flags are exactly one of `0`, `UFS_CREATE`,
`UFS_READ_ONLY`, `UFS_READ_WRITE`, and may write iff exactly one of `0`,
`UFS_CREATE`, `UFS_WRITE_ONLY`, `UFS_READ_WRITE`; in particular a
descriptor with no access bits may both read and write, but combined
values such as `UFS_CREATE ||| UFS_READ_ONLY` are denied everything.  A
denied `ufs_read` or `ufs_write` returns `-1`, sets `NO_PERMISSION`, and
changes nothing but the error code. -/
theorem C3_ufs_access_flags_amended :
    (∀ d : Filedesc, is_readable d = true ↔
      (d.flags = 0 ∨ d.flags = UFS_CREATE ∨ d.flags = UFS_READ_ONLY
        ∨ d.flags = UFS_READ_WRITE))
    ∧ (∀ d : Filedesc, is_writable d = true ↔
      (d.flags = 0 ∨ d.flags = UFS_CREATE ∨ d.flags = UFS_WRITE_ONLY
        ∨ d.flags = UFS_READ_WRITE))
    ∧ (∀ st fd size d, locate_descriptor st fd = some d →
        is_readable d = false →
        ufs_read st fd size
          = (⟨st.file_list, st.file_descriptors, st.file_descriptor_count,
              st.next_id, UFS_ERR_NO_PERMISSION⟩, none))
    ∧ (∀ st fd buf d, locate_descriptor st fd = some d →
        is_writable d = false →
        ufs_write st fd buf
          = (⟨st.file_list, st.file_descriptors, st.file_descriptor_count,
              st.next_id, UFS_ERR_NO_PERMISSION⟩, none)) := by
  refine ⟨?_, ?_, ?_, ?_⟩
  · intro d
    unfold is_readable
    simp [UFS_CREATE, UFS_READ_ONLY, UFS_READ_WRITE]
    tauto
  · intro d
    unfold is_writable
    simp [UFS_CREATE, UFS_WRITE_ONLY, UFS_READ_WRITE]
    tauto
  · intro st fd size d hloc hr
    exact ufs_read_no_permission st fd size d hloc hr
  · intro st fd buf d hloc hw
    exact ufs_write_no_permission st fd buf d hloc hw

/-- Witness for the amended claim C3: a concrete denied read and denied
write through a `CREATE | READ_ONLY` descriptor leave the state intact up
to the error code. -/
theorem C3_ufs_access_flags_amended_witness :
    locate_descriptor (ufs_open ufs_initial "q"
        (UFS_CREATE ||| UFS_READ_ONLY)).1 0
      = some ⟨0, 0, UFS_CREATE ||| UFS_READ_ONLY, 0⟩
    ∧ is_readable ⟨0, 0, UFS_CREATE ||| UFS_READ_ONLY, 0⟩ = false
    ∧ is_writable ⟨0, 0, UFS_CREATE ||| UFS_READ_ONLY, 0⟩ = false
    ∧ ufs_read (ufs_open ufs_initial "q"
        (UFS_CREATE ||| UFS_READ_ONLY)).1 0 5
      = (⟨(ufs_open ufs_initial "q"
            (UFS_CREATE ||| UFS_READ_ONLY)).1.file_list,
          (ufs_open ufs_initial "q"
            (UFS_CREATE ||| UFS_READ_ONLY)).1.file_descriptors,
          (ufs_open ufs_initial "q"
            (UFS_CREATE ||| UFS_READ_ONLY)).1.file_descriptor_count,
          (ufs_open ufs_initial "q"
            (UFS_CREATE ||| UFS_READ_ONLY)).1.next_id,
          UFS_ERR_NO_PERMISSION⟩, none)
    ∧ ufs_write (ufs_open ufs_initial "q"
        (UFS_CREATE ||| UFS_READ_ONLY)).1 0 [1]
      = (⟨(ufs_open ufs_initial "q"
            (UFS_CREATE ||| UFS_READ_ONLY)).1.file_list,
          (ufs_open ufs_initial "q"
            (UFS_CREATE ||| UFS_READ_ONLY)).1.file_descriptors,
          (ufs_open ufs_initial "q"
            (UFS_CREATE ||| UFS_READ_ONLY)).1.file_descriptor_count,
          (ufs_open ufs_initial "q"
            (UFS_CREATE ||| UFS_READ_ONLY)).1.next_id,
          UFS_ERR_NO_PERMISSION⟩, none) :=
  ⟨rfl, rfl, rfl,
    C3_ufs_access_flags_amended.2.2.1 _ 0 5
      ⟨0, 0, UFS_CREATE ||| UFS_READ_ONLY, 0⟩ rfl rfl,
    C3_ufs_access_flags_amended.2.2.2 _ 0 [1]
      ⟨0, 0, UFS_CREATE ||| UFS_READ_ONLY, 0⟩ rfl rfl⟩

/-- Counterexample to claim C2: the cap check over-approximates the
completed payload.  After creating a file, writing one byte, and
reopening it write-only (cursor back at byte 0), overwriting with exactly
`MAX_FILE_SIZE` bytes would leave the file at exactly the cap — yet the
call is rejected wholesale with `NO_MEM` and writes nothing, because the
check adds the occupied count of the current block on top of the buffer
length. -/
theorem C2_ufs_size_cap_counterexample :
    (ufs_open (ufs_write (ufs_open ufs_initial "f" UFS_CREATE).1 0
        [7]).1 "f" UFS_WRITE_ONLY).2 = some 1
    ∧ locate_descriptor (ufs_open (ufs_write (ufs_open ufs_initial "f"
        UFS_CREATE).1 0 [7]).1 "f" UFS_WRITE_ONLY).1 1
      = some ⟨0, 0, UFS_WRITE_ONLY, 0⟩
    ∧ is_writable ⟨0, 0, UFS_WRITE_ONLY, 0⟩ = true
    ∧ (∃ F, (ufs_open (ufs_write (ufs_open ufs_initial "f"
          UFS_CREATE).1 0 [7]).1 "f"
          UFS_WRITE_ONLY).1.file_list.find? (fun f => f.id == (0 : Nat))
        = some F
      ∧ (content F.block_list).length = 1
      ∧ max (content F.block_list).length
          (0 + (List.replicate MAX_FILE_SIZE (0 : Nat)).length)
          ≤ MAX_FILE_SIZE)
    ∧ (ufs_write (ufs_open (ufs_write (ufs_open ufs_initial "f"
        UFS_CREATE).1 0 [7]).1 "f" UFS_WRITE_ONLY).1 1
        (List.replicate MAX_FILE_SIZE 0)).2 = none
    ∧ (ufs_write (ufs_open (ufs_write (ufs_open ufs_initial "f"
        UFS_CREATE).1 0 [7]).1 "f" UFS_WRITE_ONLY).1 1
        (List.replicate MAX_FILE_SIZE 0)).1.errno = UFS_ERR_NO_MEM
    ∧ (ufs_write (ufs_open (ufs_write (ufs_open ufs_initial "f"
        UFS_CREATE).1 0 [7]).1 "f" UFS_WRITE_ONLY).1 1
        (List.replicate MAX_FILE_SIZE 0)).1.file_list
      = (ufs_open (ufs_write (ufs_open ufs_initial "f"
        UFS_CREATE).1 0 [7]).1 "f" UFS_WRITE_ONLY).1.file_list := by
  have hlen1 : (content ((⟨0, (writeLoop [newBlock] 0 0 [7]).1, 2, "f",
      false⟩ : UFile)).block_list).length = 1 := by
    show (content (writeLoop [newBlock] 0 0 [7]).1).length = 1
    rw [(c1_write_facts [7]).1]
    rfl
  have hocc : (((⟨0, (writeLoop [newBlock] 0 0 [7]).1, 2, "f",
      false⟩ : UFile)).block_list.getD 0 newBlock).occupied = 1 := by
    show ((writeLoop [newBlock] 0 0 [7]).1.getD 0 newBlock).occupied = 1
    have hmin : min (BLOCK_SIZE - 0) ([7] : List Nat).length = 1 := by
      decide
    rw [writeLoop_write [newBlock] 0 0 [7] (by simp) (by decide)
      (by rw [hmin]; decide)]
    simp only [hmin]
    rw [show ([7] : List Nat).drop 1 = [] from rfl]
    rw [writeLoop_nil]
    rfl
  have hrej := ufs_write_reject
    (ufs_open (ufs_write (ufs_open ufs_initial "f" UFS_CREATE).1 0
      [7]).1 "f" UFS_WRITE_ONLY).1 1 (List.replicate MAX_FILE_SIZE 0)
    ⟨0, 0, UFS_WRITE_ONLY, 0⟩
    ⟨0, (writeLoop [newBlock] 0 0 [7]).1, 2, "f", false⟩
    rfl rfl rfl
    (by
      rw [List.length_replicate, hocc]
      show 1 + 0 * BLOCK_SIZE + MAX_FILE_SIZE > MAX_FILE_SIZE
      omega)
  refine ⟨rfl, rfl, rfl,
    ⟨⟨0, (writeLoop [newBlock] 0 0 [7]).1, 2, "f", false⟩, rfl, hlen1,
      ?_⟩, ?_, ?_, ?_⟩
  · rw [List.length_replicate, hlen1]
    have hmax : MAX_FILE_SIZE = 104857600 := rfl
    rw [hmax]
    norm_num
  · rw [hrej]
  · rw [hrej]
  · rw [hrej]

/-- Claim C2 (amended): `ufs_write`'s cap check compares
`occupied(current block) + current_segment * BLOCK_SIZE + size` with
`MAX_FILE_SIZE`.  Exactly when that sum exceeds the cap, the call writes
nothing, returns `-1` and sets `NO_MEM`, leaving everything but the
error code unchanged; otherwise it returns the full byte count.  The sum
over-approximates the completed payload, so every write whose completion
really would exceed the cap is rejected — but (per the counterexample)
some overwrites that would stay within the cap are rejected too. -/
theorem C2_ufs_size_cap_amended :
    (∀ st fd buf d F, locate_descriptor st fd = some d →
      is_writable d = true →
      st.file_list.find? (fun f => f.id == d.file_id) = some F →
      (((F.block_list.getD d.curr_data_segment newBlock).occupied
          + d.curr_data_segment * BLOCK_SIZE + buf.length
          > MAX_FILE_SIZE →
        ufs_write st fd buf
          = (⟨st.file_list, st.file_descriptors,
              st.file_descriptor_count, st.next_id,
              UFS_ERR_NO_MEM⟩, none))
      ∧ (¬ ((F.block_list.getD d.curr_data_segment newBlock).occupied
          + d.curr_data_segment * BLOCK_SIZE + buf.length
          > MAX_FILE_SIZE) →
        (ufs_write st fd buf).2 = some buf.length)))
    ∧ (∀ st fd buf d F, locate_descriptor st fd = some d →
      is_writable d = true →
      st.file_list.find? (fun f => f.id == d.file_id) = some F →
      d.byte_pos ≤ (F.block_list.getD d.curr_data_segment
        newBlock).occupied →
      d.curr_data_segment * BLOCK_SIZE + d.byte_pos + buf.length
        > MAX_FILE_SIZE →
      ufs_write st fd buf
        = (⟨st.file_list, st.file_descriptors, st.file_descriptor_count,
            st.next_id, UFS_ERR_NO_MEM⟩, none)) := by
  constructor
  · intro st fd buf d F hloc hw hfind
    constructor
    · intro hguard
      exact ufs_write_reject st fd buf d F hloc hw hfind hguard
    · intro hguard
      rw [ufs_write_ok st fd buf d F hloc hw hfind hguard]
  · intro st fd buf d F hloc hw hfind hpos hgt
    refine ufs_write_reject st fd buf d F hloc hw hfind ?_
    omega

/-- Witness for the amended claim C2: on a fresh file, writing
`MAX_FILE_SIZE + 1` bytes trips the cap check and is rejected wholesale
with `NO_MEM`, while writing one byte is not rejected and returns `1`. -/
theorem C2_ufs_size_cap_amended_witness :
    ufs_write (ufs_open ufs_initial "f" UFS_CREATE).1 0
        (List.replicate (MAX_FILE_SIZE + 1) 0)
      = (⟨(ufs_open ufs_initial "f" UFS_CREATE).1.file_list,
          (ufs_open ufs_initial "f" UFS_CREATE).1.file_descriptors,
          (ufs_open ufs_initial "f" UFS_CREATE).1.file_descriptor_count,
          (ufs_open ufs_initial "f" UFS_CREATE).1.next_id,
          UFS_ERR_NO_MEM⟩, none)
    ∧ (ufs_write (ufs_open ufs_initial "f" UFS_CREATE).1 0 [7]).2
      = some 1 := by
  have h := C2_ufs_size_cap_amended.1
    (ufs_open ufs_initial "f" UFS_CREATE).1 0
    (List.replicate (MAX_FILE_SIZE + 1) 0)
    ⟨0, 0, UFS_CREATE, 0⟩ ⟨0, [newBlock], 1, "f", false⟩
    rfl rfl rfl
  have h2 := C2_ufs_size_cap_amended.1
    (ufs_open ufs_initial "f" UFS_CREATE).1 0 [7]
    ⟨0, 0, UFS_CREATE, 0⟩ ⟨0, [newBlock], 1, "f", false⟩
    rfl rfl rfl
  refine ⟨h.1 ?_, h2.2 ?_⟩
  · rw [List.length_replicate]
    show newBlock.occupied + 0 * BLOCK_SIZE + (MAX_FILE_SIZE + 1)
      > MAX_FILE_SIZE
    rw [show newBlock.occupied = 0 from rfl]
    omega
  · show ¬ (newBlock.occupied + 0 * BLOCK_SIZE + ([7] : List Nat).length
      > MAX_FILE_SIZE)
    rw [show newBlock.occupied = 0 from rfl,
      show ([7] : List Nat).length = 1 from rfl,
      show MAX_FILE_SIZE = 104857600 from rfl,
      show BLOCK_SIZE = 4096 from rfl]
    omega

end Ufs

namespace Tpool

open TpoolErrorCode
open TaskState

theorem pushPickupIter_spec (M : Nat) (hM : 0 < M) :
    ∀ K, K ≤ TPOOL_MAX_TASKS →
      pushPickupIter M K = ⟨M, min K M, min K M, K - min K M, false⟩ := by
  intro K
  induction K with
  | zero =>
    intro _
    show (⟨M, 0, 0, 0, false⟩ : ThreadPool) = _
    simp
  | succ k ih =>
    intro hK
    have hk := ih (by omega)
    have hMT : TPOOL_MAX_TASKS = 100000 := rfl
    show worker_pickup (thread_pool_push_task (pushPickupIter M k)
      thread_task_new).1 = _
    rw [hk]
    have hpush : (thread_pool_push_task
        (⟨M, min k M, min k M, k - min k M, false⟩ : ThreadPool)
        thread_task_new).1
        = ⟨M,
            if min k M < M ∧ min k M = min k M then min k M + 1
            else min k M,
            min k M, k - min k M + 1, false⟩ := by
      unfold thread_pool_push_task
      rw [if_neg (by simp)]
      rw [if_neg (by
        show ¬ ((k : Nat) - min k M ≥ TPOOL_MAX_TASKS)
        rw [hMT] at hK ⊢
        omega)]
      rw [if_neg (by simp [thread_task_new])]
    rw [hpush]
    by_cases hkM : k < M
    · rw [if_pos (⟨by omega, rfl⟩ :
        min k M < M ∧ min k M = min k M)]
      unfold worker_pickup
      rw [if_pos (by
        refine ⟨by simp, ?_, ?_⟩
        · show (0 : Nat) < k - min k M + 1
          omega
        · show min k M < min k M + 1
          omega)]
      show (⟨M, min k M + 1, min k M + 1, k - min k M + 1 - 1,
        false⟩ : ThreadPool)
        = ⟨M, min (k + 1) M, min (k + 1) M, k + 1 - min (k + 1) M, false⟩
      have e1 : min k M + 1 = min (k + 1) M := by omega
      have e2 : k - min k M + 1 - 1 = k + 1 - min (k + 1) M := by omega
      rw [e1, e2]
    · rw [if_neg (by
        intro h
        exact absurd h.1 (by omega))]
      unfold worker_pickup
      rw [if_neg (by
        intro h
        have h3 := h.2.2
        revert h3
        show ¬ (min k M < min k M)
        omega)]
      show (⟨M, min k M, min k M, k - min k M + 1, false⟩ : ThreadPool)
        = ⟨M, min (k + 1) M, min (k + 1) M, k + 1 - min (k + 1) M, false⟩
      have e2 : k - min k M + 1 = k + 1 - min (k + 1) M := by omega
      rw [e2]
      have e1 : min k M = min (k + 1) M := by omega
      rw [e1]

/-- Claim C7: lazy worker growth.  A successful `thread_pool_push_task`
increments `threads_created` exactly when every already-created worker
is busy and the cap is not yet reached, and leaves it unchanged
otherwise; pushing `K` tasks into a fresh pool with cap `M` under a
prompt scheduler (each task picked up before the next push when an idle
worker exists) creates exactly `min K M` workers; and
`threads_busy ≤ threads_created ≤ max_threads` is preserved by every
operation. -/
theorem C7_tpool_lazy_worker_growth :
    (∀ p t, (thread_pool_push_task p t).2.2 = none →
      ((thread_pool_push_task p t).1.threads_created
          = p.threads_created + 1
        ↔ (p.threads_created < p.max_threads
            ∧ p.threads_busy = p.threads_created))
      ∧ ((thread_pool_push_task p t).1.threads_created
            = p.threads_created
        ↔ ¬ (p.threads_created < p.max_threads
            ∧ p.threads_busy = p.threads_created)))
    ∧ (∀ M K, 0 < M → K ≤ TPOOL_MAX_TASKS →
        (pushPickupIter M K).threads_created = min K M)
    ∧ (∀ mtc p, thread_pool_new mtc = .ok p → PoolInv p)
    ∧ (∀ p t, PoolInv p → PoolInv (thread_pool_push_task p t).1)
    ∧ (∀ p, PoolInv p → PoolInv (worker_pickup p))
    ∧ (∀ p, PoolInv p → PoolInv (worker_finish p))
    ∧ (∀ p, PoolInv p → PoolInv (thread_pool_delete p).1) := by
  refine ⟨?_, ?_, ?_, ?_, ?_, ?_, ?_⟩
  · intro p t h
    unfold thread_pool_push_task at h ⊢
    by_cases h1 : p.shutting_down
    · rw [if_pos h1] at h
      exact absurd h (by simp)
    · rw [if_neg h1] at h ⊢
      by_cases h2 : p.task_total ≥ TPOOL_MAX_TASKS
      · rw [if_pos h2] at h
        exact absurd h (by simp)
      · rw [if_neg h2] at h ⊢
        by_cases h3 : t.state ≠ TaskState.TASK_NEW
            ∧ t.state ≠ TaskState.TASK_DONE
        · rw [if_pos h3] at h
          exact absurd h (by simp)
        · rw [if_neg h3]
          by_cases hc : p.threads_created < p.max_threads
              ∧ p.threads_busy = p.threads_created
          · rw [if_pos hc]
            dsimp only []
            constructor
            · exact ⟨fun _ => hc, fun _ => rfl⟩
            · constructor
              · intro he
                exact absurd he (by omega)
              · intro hn
                exact absurd hc hn
          · rw [if_neg hc]
            dsimp only []
            constructor
            · constructor
              · intro he
                exact absurd he (by omega)
              · intro hcc
                exact absurd hcc hc
            · exact ⟨fun _ => hc, fun _ => rfl⟩
  · intro M K hM hK
    rw [pushPickupIter_spec M hM K hK]
  · intro mtc p h
    unfold thread_pool_new at h
    by_cases h1 : mtc ≤ 0 ∨ mtc > (TPOOL_MAX_THREADS : Int)
    · rw [if_pos h1] at h
      exact absurd h (by simp)
    · rw [if_neg h1] at h
      simp at h
      rw [← h]
      exact ⟨Nat.le_refl 0, Nat.zero_le _⟩
  · intro p t hinv
    obtain ⟨hb, hc⟩ := hinv
    unfold thread_pool_push_task
    by_cases h1 : p.shutting_down
    · rw [if_pos h1]
      exact ⟨hb, hc⟩
    · rw [if_neg h1]
      by_cases h2 : p.task_total ≥ TPOOL_MAX_TASKS
      · rw [if_pos h2]
        exact ⟨hb, hc⟩
      · rw [if_neg h2]
        by_cases h3 : t.state ≠ TaskState.TASK_NEW
            ∧ t.state ≠ TaskState.TASK_DONE
        · rw [if_pos h3]
          exact ⟨hb, hc⟩
        · rw [if_neg h3]
          by_cases hcnd : p.threads_created < p.max_threads
              ∧ p.threads_busy = p.threads_created
          · rw [if_pos hcnd]
            obtain ⟨h4, h5⟩ := hcnd
            refine ⟨?_, ?_⟩
            · show p.threads_busy ≤ p.threads_created + 1
              omega
            · show p.threads_created + 1 ≤ p.max_threads
              omega
          · rw [if_neg hcnd]
            exact ⟨hb, hc⟩
  · intro p hinv
    obtain ⟨hb, hc⟩ := hinv
    unfold worker_pickup
    by_cases h1 : ¬ p.shutting_down ∧ 0 < p.task_total
        ∧ p.threads_busy < p.threads_created
    · rw [if_pos h1]
      obtain ⟨-, -, h3⟩ := h1
      refine ⟨?_, hc⟩
      show p.threads_busy + 1 ≤ p.threads_created
      omega
    · rw [if_neg h1]
      exact ⟨hb, hc⟩
  · intro p hinv
    obtain ⟨hb, hc⟩ := hinv
    unfold worker_finish
    by_cases h1 : 0 < p.threads_busy
    · rw [if_pos h1]
      refine ⟨?_, hc⟩
      show p.threads_busy - 1 ≤ p.threads_created
      omega
    · rw [if_neg h1]
      exact ⟨hb, hc⟩
  · intro p hinv
    obtain ⟨hb, hc⟩ := hinv
    unfold thread_pool_delete
    by_cases h1 : p.task_total > 0 ∨ p.threads_busy > 0
    · rw [if_pos h1]
      exact ⟨hb, hc⟩
    · rw [if_neg h1]
      refine ⟨?_, Nat.zero_le _⟩
      show p.threads_busy ≤ 0
      omega

/-- Witness for claim C7: concrete instances — a push into a pool whose
single worker is busy spawns a second worker; five prompt-scheduler
pushes into a fresh pool with cap 2 create exactly `min 5 2 = 2`
workers; and the counter invariant is preserved on a concrete pool. -/
theorem C7_tpool_lazy_worker_growth_witness :
    ((thread_pool_push_task (⟨4, 1, 1, 0, false⟩ : ThreadPool)
        thread_task_new).1.threads_created
      = (⟨4, 1, 1, 0, false⟩ : ThreadPool).threads_created + 1
      ↔ ((⟨4, 1, 1, 0, false⟩ : ThreadPool).threads_created
          < (⟨4, 1, 1, 0, false⟩ : ThreadPool).max_threads
        ∧ (⟨4, 1, 1, 0, false⟩ : ThreadPool).threads_busy
          = (⟨4, 1, 1, 0, false⟩ : ThreadPool).threads_created))
    ∧ (pushPickupIter 2 5).threads_created = min 5 2
    ∧ PoolInv (thread_pool_push_task (⟨4, 1, 1, 0, false⟩ : ThreadPool)
        thread_task_new).1 :=
  ⟨(C7_tpool_lazy_worker_growth.1 (⟨4, 1, 1, 0, false⟩ : ThreadPool)
      thread_task_new rfl).1,
   C7_tpool_lazy_worker_growth.2.1 2 5 (by decide) (by decide),
   C7_tpool_lazy_worker_growth.2.2.2.1 (⟨4, 1, 1, 0, false⟩ : ThreadPool)
     thread_task_new ⟨by decide, by decide⟩⟩

/-- Claim C8: lifecycle errors without mutation.  `thread_pool_delete`
refuses with `HAS_TASKS` exactly while tasks are pending or running and
then changes nothing; `thread_task_delete` refuses with `TASK_IN_POOL`
on a queued or running task and changes nothing; `thread_task_join`
refuses with `TASK_NOT_PUSHED` on a task never pushed (state `NEW` or no
owner — in particular a freshly created task) and changes nothing. -/
theorem C8_tpool_lifecycle_errors :
    (∀ p, p.task_total > 0 ∨ p.threads_busy > 0 →
      thread_pool_delete p = (p, some TPOOL_ERR_HAS_TASKS))
    ∧ (∀ p, ¬ (p.task_total > 0 ∨ p.threads_busy > 0) →
      (thread_pool_delete p).2 = none)
    ∧ (∀ t, t.state = TASK_QUEUED ∨ t.state = TASK_RUNNING →
      thread_task_delete t = (t, some TPOOL_ERR_TASK_IN_POOL))
    ∧ (∀ t, t.state = TASK_NEW ∨ t.hasOwner = false →
      thread_task_join t = (t, some TPOOL_ERR_TASK_NOT_PUSHED))
    ∧ thread_task_join thread_task_new
      = (thread_task_new, some TPOOL_ERR_TASK_NOT_PUSHED) := by
  refine ⟨?_, ?_, ?_, ?_, rfl⟩
  · intro p h
    unfold thread_pool_delete
    rw [if_pos h]
  · intro p h
    unfold thread_pool_delete
    rw [if_neg h]
  · intro t h
    unfold thread_task_delete
    rw [if_pos h]
  · intro t h
    unfold thread_task_join
    rw [if_pos h]

/-- Witness for claim C8: the three error paths on concrete objects — a
pool with one queued task, a queued task, a fresh task. -/
theorem C8_tpool_lifecycle_errors_witness :
    thread_pool_delete (⟨4, 1, 0, 1, false⟩ : ThreadPool)
      = ((⟨4, 1, 0, 1, false⟩ : ThreadPool), some TPOOL_ERR_HAS_TASKS)
    ∧ (thread_pool_delete (⟨4, 0, 0, 0, false⟩ : ThreadPool)).2 = none
    ∧ thread_task_delete (⟨TASK_QUEUED, true⟩ : ThreadTask)
      = ((⟨TASK_QUEUED, true⟩ : ThreadTask), some TPOOL_ERR_TASK_IN_POOL)
    ∧ thread_task_join (⟨TASK_NEW, false⟩ : ThreadTask)
      = ((⟨TASK_NEW, false⟩ : ThreadTask),
          some TPOOL_ERR_TASK_NOT_PUSHED) :=
  ⟨C8_tpool_lifecycle_errors.1 (⟨4, 1, 0, 1, false⟩ : ThreadPool)
      (by decide),
   C8_tpool_lifecycle_errors.2.1 (⟨4, 0, 0, 0, false⟩ : ThreadPool)
      (by decide),
   C8_tpool_lifecycle_errors.2.2.1 (⟨TASK_QUEUED, true⟩ : ThreadTask)
      (by decide),
   C8_tpool_lifecycle_errors.2.2.2.1 (⟨TASK_NEW, false⟩ : ThreadTask)
      (by decide)⟩

end Tpool

namespace Shell

open Expr
open OutputType

theorem execOps_nil (run : PipeCall → ExecResult) (line : CommandLine)
    (d : ExecResult) : execOps run line [] d = (d, []) := by
  rw [execOps.eq_def]

theorem execOps_skip (run : PipeCall → ExecResult) (line : CommandLine)
    (e : Expr) (rest : List Expr) (d : ExecResult)
    (h : ¬ ((e = EAND ∧ d.return_code = 0)
      ∨ (e = EOR ∧ d.return_code ≠ 0))) :
    execOps run line (e :: rest) d = execOps run line rest d := by
  rw [execOps.eq_def]
  dsimp only []
  rw [if_neg h]

theorem execOps_taken (run : PipeCall → ExecResult) (line : CommandLine)
    (e : Expr) (rest : List Expr) (d : ExecResult)
    (h : (e = EAND ∧ d.return_code = 0)
      ∨ (e = EOR ∧ d.return_code ≠ 0)) :
    execOps run line (e :: rest) d
      = (if (run (mkCall line rest)).need_exit
          then (run (mkCall line rest), [mkCall line rest])
          else ((execOps run line (dropSeg rest)
              (run (mkCall line rest))).1,
            mkCall line rest :: (execOps run line (dropSeg rest)
              (run (mkCall line rest))).2)) := by
  rw [execOps.eq_def]
  dsimp only []
  rw [if_pos h]

theorem exec_example :
    execute_command_line exampleRun exampleLine
      = (⟨false, 0⟩,
         [⟨[ECMD "false" []], none, OUTPUT_TYPE_STDOUT, true⟩,
          ⟨[ECMD "echo" ["B"]], none, OUTPUT_TYPE_STDOUT, true⟩]) := by
  unfold execute_command_line
  dsimp only []
  rw [show mkCall exampleLine exampleLine.exprs
    = ⟨[ECMD "false" []], none, OUTPUT_TYPE_STDOUT, true⟩ from rfl]
  rw [show exampleRun
      ⟨[ECMD "false" []], none, OUTPUT_TYPE_STDOUT, true⟩
    = ⟨false, (1 : Int)⟩ from rfl]
  rw [if_neg (by decide)]
  rw [show dropSeg exampleLine.exprs
    = [EAND, ECMD "echo" ["A"], EOR, ECMD "echo" ["B"]] from rfl]
  rw [execOps_skip exampleRun exampleLine EAND
    [ECMD "echo" ["A"], EOR, ECMD "echo" ["B"]] ⟨false, (1 : Int)⟩
    (by decide)]
  rw [execOps_skip exampleRun exampleLine (ECMD "echo" ["A"])
    [EOR, ECMD "echo" ["B"]] ⟨false, (1 : Int)⟩ (by decide)]
  rw [execOps_taken exampleRun exampleLine EOR [ECMD "echo" ["B"]]
    ⟨false, (1 : Int)⟩ (by decide)]
  rw [show mkCall exampleLine [ECMD "echo" ["B"]]
    = ⟨[ECMD "echo" ["B"]], none, OUTPUT_TYPE_STDOUT, true⟩ from rfl]
  rw [show exampleRun
      ⟨[ECMD "echo" ["B"]], none, OUTPUT_TYPE_STDOUT, true⟩
    = ⟨false, (0 : Int)⟩ from rfl]
  rw [if_neg (by decide)]
  rw [show dropSeg [ECMD "echo" ["B"]] = ([] : List Expr) from rfl]
  rw [execOps_nil]

/-- Claim C6: logical chaining.  In the operator walk of
`execute_command_line`, an `&&` is followed by an executed segment
exactly when the last result's code is `0` and is skipped otherwise; an
`||` symmetrically for a non-zero code; and on the concrete line
`false && echo A || echo B` exactly the `false` and `echo B` segments
are run and the line's final code is `0`. -/
theorem C6_shell_logical_chaining :
    (∀ run line rest d, d.return_code = 0 →
      execOps run line (Expr.EAND :: rest) d
        = (if (run (mkCall line rest)).need_exit
            then (run (mkCall line rest), [mkCall line rest])
            else ((execOps run line (dropSeg rest)
                (run (mkCall line rest))).1,
              mkCall line rest :: (execOps run line (dropSeg rest)
                (run (mkCall line rest))).2)))
    ∧ (∀ run line rest d, d.return_code ≠ 0 →
      execOps run line (Expr.EAND :: rest) d
        = execOps run line rest d)
    ∧ (∀ run line rest d, d.return_code ≠ 0 →
      execOps run line (Expr.EOR :: rest) d
        = (if (run (mkCall line rest)).need_exit
            then (run (mkCall line rest), [mkCall line rest])
            else ((execOps run line (dropSeg rest)
                (run (mkCall line rest))).1,
              mkCall line rest :: (execOps run line (dropSeg rest)
                (run (mkCall line rest))).2)))
    ∧ (∀ run line rest d, d.return_code = 0 →
      execOps run line (Expr.EOR :: rest) d
        = execOps run line rest d)
    ∧ execute_command_line exampleRun exampleLine
      = (⟨false, 0⟩,
         [⟨[Expr.ECMD "false" []], none, OUTPUT_TYPE_STDOUT, true⟩,
          ⟨[Expr.ECMD "echo" ["B"]], none, OUTPUT_TYPE_STDOUT,
            true⟩]) := by
  refine ⟨?_, ?_, ?_, ?_, exec_example⟩
  · intro run line rest d h
    exact execOps_taken run line Expr.EAND rest d (Or.inl ⟨rfl, h⟩)
  · intro run line rest d h
    refine execOps_skip run line Expr.EAND rest d ?_
    intro hc
    rcases hc with ⟨_, h0⟩ | ⟨habs, _⟩
    · exact h h0
    · exact Expr.noConfusion habs
  · intro run line rest d h
    exact execOps_taken run line Expr.EOR rest d (Or.inr ⟨rfl, h⟩)
  · intro run line rest d h
    refine execOps_skip run line Expr.EOR rest d ?_
    intro hc
    rcases hc with ⟨habs, _⟩ | ⟨_, h0⟩
    · exact Expr.noConfusion habs
    · exact h0 h

/-- Witness for claim C6: a skipped `&&` segment after a failing result
and a skipped `||` segment after a succeeding result, on concrete
inputs. -/
theorem C6_shell_logical_chaining_witness :
    ((⟨false, 1⟩ : ExecResult).return_code ≠ 0
      ∧ execOps exampleRun exampleLine
          (Expr.EAND :: [Expr.ECMD "x" []]) ⟨false, 1⟩
        = execOps exampleRun exampleLine [Expr.ECMD "x" []] ⟨false, 1⟩)
    ∧ ((⟨false, 0⟩ : ExecResult).return_code = 0
      ∧ execOps exampleRun exampleLine
          (Expr.EOR :: [Expr.ECMD "x" []]) ⟨false, 0⟩
        = execOps exampleRun exampleLine [Expr.ECMD "x" []]
            ⟨false, 0⟩) :=
  ⟨⟨by decide, C6_shell_logical_chaining.2.1 exampleRun exampleLine
      [Expr.ECMD "x" []] ⟨false, 1⟩ (by decide)⟩,
   ⟨by decide, C6_shell_logical_chaining.2.2.2.1 exampleRun exampleLine
      [Expr.ECMD "x" []] ⟨false, 0⟩ (by decide)⟩⟩

theorem mkCall_nonfinal (line : CommandLine) (l : List Expr)
    (h : dropSeg l ≠ []) :
    (mkCall line l).out_file = none
    ∧ (mkCall line l).out_type = OUTPUT_TYPE_STDOUT
    ∧ (mkCall line l).should_wait = true := by
  unfold mkCall
  refine ⟨?_, ?_, ?_⟩
  · show (if dropSeg l = [] then line.out_file else none) = none
    rw [if_neg h]
  · show (if dropSeg l = [] then line.out_type
      else OUTPUT_TYPE_STDOUT) = OUTPUT_TYPE_STDOUT
    rw [if_neg h]
  · show (if dropSeg l = [] then !line.is_background else true) = true
    rw [if_neg h]

theorem execOps_calls (run : PipeCall → ExecResult)
    (line : CommandLine) :
    ∀ n l d call, l.length ≤ n →
      call ∈ (execOps run line l d).2 →
      ∃ lsuf, call = mkCall line lsuf := by
  intro n
  induction n with
  | zero =>
    intro l d call hlen hmem
    have hl : l = [] := List.length_eq_zero.1 (by omega)
    subst hl
    rw [execOps_nil] at hmem
    simp at hmem
  | succ n ih =>
    intro l d call hlen hmem
    match l with
    | [] =>
      rw [execOps_nil] at hmem
      simp at hmem
    | e :: rest =>
      by_cases hcond : (e = Expr.EAND ∧ d.return_code = 0)
          ∨ (e = Expr.EOR ∧ d.return_code ≠ 0)
      · rw [execOps_taken run line e rest d hcond] at hmem
        by_cases hex : (run (mkCall line rest)).need_exit
        · rw [if_pos hex] at hmem
          simp at hmem
          exact ⟨rest, hmem⟩
        · rw [if_neg hex] at hmem
          rcases List.mem_cons.1 hmem with h | h
          · exact ⟨rest, h⟩
          · refine ih (dropSeg rest) (run (mkCall line rest)) call ?_ h
            have hsub := (List.dropWhile_suffix
              (fun e => !determine_expression_is_operator e)
              (l := rest)).length_le
            simp only [List.length_cons] at hlen
            simp only [dropSeg]
            omega
      · rw [execOps_skip run line e rest d hcond] at hmem
        refine ih rest d call ?_ hmem
        simp only [List.length_cons] at hlen
        omega

theorem execOps_dropLast (run : PipeCall → ExecResult)
    (line : CommandLine) :
    ∀ n l d call, l.length ≤ n →
      call ∈ (execOps run line l d).2.dropLast →
      call.out_file = none ∧ call.out_type = OUTPUT_TYPE_STDOUT
        ∧ call.should_wait = true := by
  intro n
  induction n with
  | zero =>
    intro l d call hlen hmem
    have hl : l = [] := List.length_eq_zero.1 (by omega)
    subst hl
    rw [execOps_nil] at hmem
    simp at hmem
  | succ n ih =>
    intro l d call hlen hmem
    match l with
    | [] =>
      rw [execOps_nil] at hmem
      simp at hmem
    | e :: rest =>
      by_cases hcond : (e = Expr.EAND ∧ d.return_code = 0)
          ∨ (e = Expr.EOR ∧ d.return_code ≠ 0)
      · rw [execOps_taken run line e rest d hcond] at hmem
        by_cases hex : (run (mkCall line rest)).need_exit
        · rw [if_pos hex] at hmem
          simp at hmem
        · rw [if_neg hex] at hmem
          rcases hr2 : (execOps run line (dropSeg rest)
              (run (mkCall line rest))).2 with _ | ⟨c2, t2⟩
          · rw [hr2] at hmem
            simp at hmem
          · rw [hr2] at hmem
            rw [List.dropLast_cons₂] at hmem
            have hdrop : dropSeg rest ≠ [] := by
              intro hd
              rw [hd, execOps_nil] at hr2
              exact List.noConfusion hr2
            rcases List.mem_cons.1 hmem with h | h
            · rw [h]
              exact mkCall_nonfinal line rest hdrop
            · rw [← hr2] at h
              refine ih (dropSeg rest) (run (mkCall line rest)) call
                ?_ h
              have hsub := (List.dropWhile_suffix
                (fun e => !determine_expression_is_operator e)
                (l := rest)).length_le
              simp only [List.length_cons] at hlen
              simp only [dropSeg]
              omega
      · rw [execOps_skip run line e rest d hcond] at hmem
        refine ih rest d call ?_ hmem
        simp only [List.length_cons] at hlen
        omega

/-- Claim C9: final-segment privileges.  In every call
`execute_command_line` issues, the segment whose rest-of-line has no
further operator receives the line's redirection target, kind and
foreground/background choice, and a segment followed by an operator
receives no redirection, stdout output and foreground waiting; every
recorded call is of that shape; and every call except the last one of
the line is of the non-final shape. -/
theorem C9_shell_final_segment_privileges :
    (∀ line l, dropSeg l ≠ [] →
      (mkCall line l).out_file = none
      ∧ (mkCall line l).out_type = OUTPUT_TYPE_STDOUT
      ∧ (mkCall line l).should_wait = true)
    ∧ (∀ line l, dropSeg l = [] →
      (mkCall line l).out_file = line.out_file
      ∧ (mkCall line l).out_type = line.out_type
      ∧ (mkCall line l).should_wait = !line.is_background)
    ∧ (∀ run line call,
        call ∈ (execute_command_line run line).2 →
        ∃ l, call = mkCall line l)
    ∧ (∀ run line call,
        call ∈ (execute_command_line run line).2.dropLast →
        call.out_file = none ∧ call.out_type = OUTPUT_TYPE_STDOUT
          ∧ call.should_wait = true) := by
  refine ⟨mkCall_nonfinal, ?_, ?_, ?_⟩
  · intro line l h
    unfold mkCall
    refine ⟨?_, ?_, ?_⟩
    · show (if dropSeg l = [] then line.out_file else none)
        = line.out_file
      rw [if_pos h]
    · show (if dropSeg l = [] then line.out_type
        else OUTPUT_TYPE_STDOUT) = line.out_type
      rw [if_pos h]
    · show (if dropSeg l = [] then !line.is_background else true)
        = !line.is_background
      rw [if_pos h]
  · intro run line call hmem
    unfold execute_command_line at hmem
    dsimp only [] at hmem
    by_cases hex : (run (mkCall line line.exprs)).need_exit
    · rw [if_pos hex] at hmem
      simp at hmem
      exact ⟨line.exprs, hmem⟩
    · rw [if_neg hex] at hmem
      rcases List.mem_cons.1 hmem with h | h
      · exact ⟨line.exprs, h⟩
      · exact execOps_calls run line (dropSeg line.exprs).length
          (dropSeg line.exprs) (run (mkCall line line.exprs)) call
          (Nat.le_refl _) h
  · intro run line call hmem
    unfold execute_command_line at hmem
    dsimp only [] at hmem
    by_cases hex : (run (mkCall line line.exprs)).need_exit
    · rw [if_pos hex] at hmem
      simp at hmem
    · rw [if_neg hex] at hmem
      rcases hr2 : (execOps run line (dropSeg line.exprs)
          (run (mkCall line line.exprs))).2 with _ | ⟨c2, t2⟩
      · rw [hr2] at hmem
        simp at hmem
      · rw [hr2] at hmem
        rw [List.dropLast_cons₂] at hmem
        have hdrop : dropSeg line.exprs ≠ [] := by
          intro hd
          rw [hd, execOps_nil] at hr2
          exact List.noConfusion hr2
        rcases List.mem_cons.1 hmem with h | h
        · rw [h]
          exact mkCall_nonfinal line line.exprs hdrop
        · rw [← hr2] at h
          exact execOps_dropLast run line (dropSeg line.exprs).length
            (dropSeg line.exprs) (run (mkCall line line.exprs)) call
            (Nat.le_refl _) h

/-- Witness for claim C9 on the example line: the first (non-final)
segment's call carries `NULL` / stdout / wait, the final segment's call
carries the line's own redirection and background choice, and the
non-last recorded call of the concrete run is of the non-final shape. -/
theorem C9_shell_final_segment_privileges_witness :
    ((mkCall exampleLine exampleLine.exprs).out_file = none
      ∧ (mkCall exampleLine exampleLine.exprs).out_type
        = OUTPUT_TYPE_STDOUT
      ∧ (mkCall exampleLine exampleLine.exprs).should_wait = true)
    ∧ ((mkCall exampleLine [Expr.ECMD "echo" ["B"]]).out_file
        = exampleLine.out_file
      ∧ (mkCall exampleLine [Expr.ECMD "echo" ["B"]]).out_type
        = exampleLine.out_type
      ∧ (mkCall exampleLine [Expr.ECMD "echo" ["B"]]).should_wait
        = !exampleLine.is_background)
    ∧ (∃ l, (⟨[Expr.ECMD "false" []], none, OUTPUT_TYPE_STDOUT,
        true⟩ : PipeCall) = mkCall exampleLine l)
    ∧ ((⟨[Expr.ECMD "false" []], none, OUTPUT_TYPE_STDOUT,
          true⟩ : PipeCall).out_file = none
      ∧ (⟨[Expr.ECMD "false" []], none, OUTPUT_TYPE_STDOUT,
          true⟩ : PipeCall).out_type = OUTPUT_TYPE_STDOUT
      ∧ (⟨[Expr.ECMD "false" []], none, OUTPUT_TYPE_STDOUT,
          true⟩ : PipeCall).should_wait = true) :=
  ⟨C9_shell_final_segment_privileges.1 exampleLine exampleLine.exprs
      (by decide),
   C9_shell_final_segment_privileges.2.1 exampleLine
      [Expr.ECMD "echo" ["B"]] (by decide),
   C9_shell_final_segment_privileges.2.2.1 exampleRun exampleLine _
      (by rw [exec_example]; decide),
   C9_shell_final_segment_privileges.2.2.2 exampleRun exampleLine _
      (by rw [exec_example]; decide)⟩

end Shell
